import Mathlib

/-!
# libgit2: error reporting (`src/errors.c`) and the status tests (`tests/t18-status.c`)

A shallow embedding of the error-message buffer, the error-code table, the
chained `git_error` objects and the callbacks and expectation tables of the
status test-suite, followed by the properties established about them.

Conventions of the embedding.

* A C `char` is its numeric value (`Byte`); a `char` array is a `List Byte`;
  the C string an array holds is the run of bytes before the first NUL
  (`c_str`).
* A `printf`-style call is described by the complete expansion of its format
  (`out`, the bytes the format and its arguments produce); what reaches memory
  is decided by `vsnprintf` below, following C99. Where the code uses the
  `int` the formatter returns (`git_error__new`), the outcome of formatting is
  `fmt : Option (List Byte)`, `none` being a formatter that fails, and `int`
  arithmetic is 32 bits wide with explicit wrap-around.
* Thread-local and heap state are passed explicitly.
-/

namespace Libgit2

/-! ## C strings and `vsnprintf` -/

/-- A `char`, as its numeric value. -/
abbrev Byte := Nat

/-- The bytes of an ASCII literal. -/
def bytes (s : String) : List Byte := s.toList.map Char.toNat

/-- The C string stored in a `char` array: the bytes before the first NUL. -/
def c_str (buf : List Byte) : List Byte := buf.takeWhile (fun b => b != 0)

/-- C99 `vsnprintf(buf, size, fmt, va)` on the array `buf`, where `out` is the
complete expansion of `fmt`: with `size = 0` nothing is written; otherwise the
first `size - 1` bytes of `out` are stored from index 0, a NUL follows them,
and the bytes of `buf` behind that NUL keep their value. -/
def vsnprintf (buf : List Byte) (size : Nat) (out : List Byte) : List Byte :=
  if size = 0 then buf
  else out.take (size - 1) ++ 0 :: buf.drop ((out.take (size - 1)).length + 1)

/-- The largest value of an `int`, 32 bits wide. -/
def INT_MAX : Int := 2147483647

/-- Addition of two `int`, 32 bits wide: the sum reduced to the range from
`-2^31` to `2^31 - 1` (two's complement wrap-around, explicit `% 2^32`). -/
def int_add (x y : Int) : Int :=
  (x + y + 2147483648) % 4294967296 - 2147483648

/-- Conversion of an `int` to `size_t`, 64 bits wide: the value modulo
`2^64`. -/
def size_t_of_int (x : Int) : Nat :=
  (x % 18446744073709551616).toNat

/-- Return value of C99 `vsnprintf`, an `int`. The outcome of the formatting
is `fmt`: `none` when the formatter fails (an encoding error), else the
complete expansion. The value is the length of the expansion, whatever the
size of the destination, when that length fits an `int`, and the negative
value `-1` when the formatter fails or the length exceeds `INT_MAX`. -/
def vsnprintf_ret (fmt : Option (List Byte)) : Int :=
  match fmt with
  | none => -1
  | some out => if (out.length : Int) ≤ INT_MAX then (out.length : Int) else -1

/-- Libc `strdup`: a new array holding the C string of `s` and its NUL. The
allocation is taken to succeed; `git___rethrow`, its only caller, does not
test the result. -/
def strdup (s : List Byte) : List Byte := c_str s ++ [0]

/-! ## The last-error buffer (`errors.c`, lines 14 and 63-99) -/

/-- `sizeof(g_last_error)`: the buffer is `char g_last_error[1024]`. -/
def g_last_error_size : Nat := 1024

/-- The zero-initialised static buffer a thread starts with. -/
def g_last_error_init : List Byte := List.replicate g_last_error_size 0

/-- The text between the two `%s` of the format of `git___rethrow`,
`"%s \n\t- %s"`: space, newline, tab, dash, space. -/
def rethrow_sep : List Byte := [32, 10, 9, 45, 32]

/-- `git___throw(msg, ...)`: formats into `g_last_error`. The argument
`g_last_error` is the buffer before the call, `out` the expansion of the
format; the result is the buffer after the call. -/
def git___throw (g_last_error : List Byte) (out : List Byte) : List Byte :=
  vsnprintf g_last_error g_last_error_size out

/-- `git___rethrow(msg, ...)`: formats the new message into the local array
`new_error` (`stack` is its indeterminate content on entry), duplicates the
current buffer, and prints `"%s \n\t- %s"` of `new_error` and the duplicate
into `g_last_error`. -/
def git___rethrow (g_last_error : List Byte) (stack : List Byte) (out : List Byte) :
    List Byte :=
  let new_error := vsnprintf stack 1024 out
  let old_error := strdup g_last_error
  vsnprintf g_last_error g_last_error_size
    (c_str new_error ++ rethrow_sep ++ c_str old_error)

/-- `git_lasterror()`: `NULL` (`none`) when `g_last_error[0]` is NUL, else the
buffer, seen by the caller as the C string it holds. -/
def git_lasterror (g_last_error : List Byte) : Option (List Byte) :=
  if g_last_error.headD 0 = 0 then none else some (c_str g_last_error)

/-- `git_clearerror()`: `g_last_error[0] = '\0'`. -/
def git_clearerror (g_last_error : List Byte) : List Byte :=
  g_last_error.set 0 0

/-! ## The error-code table and `git_strerror` (`errors.c`, lines 16-61) -/

/-- The error constants the table of `errors.c` names. Their numeric values
are set in `git2/errors.h`, which is not among the sources at hand, so the
embedding takes the numbering as a parameter `Code → Int`. -/
inductive Code
  | GIT_ERROR | GIT_ENOTOID | GIT_ENOTFOUND | GIT_ENOMEM | GIT_EOSERR
  | GIT_EOBJTYPE | GIT_EOBJCORRUPTED | GIT_ENOTAREPO | GIT_EINVALIDTYPE
  | GIT_EMISSINGOBJDATA | GIT_EPACKCORRUPTED | GIT_EFLOCKFAIL | GIT_EZLIB
  | GIT_EBUSY | GIT_EINVALIDPATH | GIT_EBAREINDEX | GIT_EINVALIDREFNAME
  | GIT_EREFCORRUPTED | GIT_ETOONESTEDSYMREF | GIT_EPACKEDREFSCORRUPTED
  | GIT_EREVWALKOVER | GIT_EINVALIDREFSTATE | GIT_ENOTIMPLEMENTED
  | GIT_EEXISTS | GIT_EOVERFLOW | GIT_ENOTNUM | GIT_EAMBIGUOUSOIDPREFIX
  deriving DecidableEq, Repr

/-- The static table `error_codes[]`, entry by entry, in source order. -/
def error_codes : List (Code × String) :=
  [ (.GIT_ERROR, "Unspecified error"),
    (.GIT_ENOTOID, "Input was not a properly formatted Git object id."),
    (.GIT_ENOTFOUND, "Object does not exist in the scope searched."),
    (.GIT_ENOMEM, "Not enough space available."),
    (.GIT_EOSERR, "Consult the OS error information."),
    (.GIT_EOBJTYPE, "The specified object is of invalid type"),
    (.GIT_EOBJCORRUPTED, "The specified object has its data corrupted"),
    (.GIT_ENOTAREPO, "The specified repository is invalid"),
    (.GIT_EINVALIDTYPE, "The object or config variable type is invalid or doesn't match"),
    (.GIT_EMISSINGOBJDATA,
      "The object cannot be written that because it's missing internal data"),
    (.GIT_EPACKCORRUPTED, "The packfile for the ODB is corrupted"),
    (.GIT_EFLOCKFAIL, "Failed to adquire or release a file lock"),
    (.GIT_EZLIB, "The Z library failed to inflate/deflate an object's data"),
    (.GIT_EBUSY, "The queried object is currently busy"),
    (.GIT_EINVALIDPATH, "The path is invalid"),
    (.GIT_EBAREINDEX, "The index file is not backed up by an existing repository"),
    (.GIT_EINVALIDREFNAME, "The name of the reference is not valid"),
    (.GIT_EREFCORRUPTED, "The specified reference has its data corrupted"),
    (.GIT_ETOONESTEDSYMREF, "The specified symbolic reference is too deeply nested"),
    (.GIT_EPACKEDREFSCORRUPTED,
      "The pack-refs file is either corrupted of its format is not currently supported"),
    (.GIT_EINVALIDPATH, "The path is invalid"),
    (.GIT_EREVWALKOVER,
      "The revision walker is empty; there are no more commits left to iterate"),
    (.GIT_EINVALIDREFSTATE, "The state of the reference is not valid"),
    (.GIT_ENOTIMPLEMENTED, "This feature has not been implemented yet"),
    (.GIT_EEXISTS, "A reference with this name already exists"),
    (.GIT_EOVERFLOW, "The given integer literal is too large to be parsed"),
    (.GIT_ENOTNUM, "The given literal is not a valid number"),
    (.GIT_EAMBIGUOUSOIDPREFIX, "The given oid prefix is ambiguous") ]

/-- The pointer `git_strerror` returns: what `strerror(errno)` returned, the
`str` field of entry `i` of `error_codes`, or the literal "Unknown error". -/
inductive StrRef
  | strerror_errno
  | table (i : Nat)
  | unknown
  deriving DecidableEq, Repr

/-- The `for` loop of `git_strerror`, at index `i` with `n` iterations left
before `i` reaches `ARRAY_SIZE(error_codes)`. -/
def git_strerror_loop (val : Code → Int) (num : Int) : Nat → Nat → StrRef
  | 0, _ => .unknown
  | n + 1, i =>
    match error_codes[i]? with
    | some e => if num = val e.1 then .table i else git_strerror_loop val num n (i + 1)
    | none => .unknown

/-- `git_strerror(num)`, under the numbering `val` of the constants. -/
def git_strerror (val : Code → Int) (num : Int) : StrRef :=
  if num = val .GIT_EOSERR then .strerror_errno
  else git_strerror_loop val num error_codes.length 0

/-- The text behind a returned pointer; `os` is the message of
`strerror(errno)`. -/
def StrRef.text (os : String) : StrRef → String
  | .strerror_errno => os
  | .table i =>
    match error_codes[i]? with
    | some e => e.2
    | none => ""
  | .unknown => "Unknown error"

/-- Reference definition of `git_strerror`, following the wording of its
contract: the message of the operating system for `GIT_EOSERR`; otherwise the
message of the first table entry with that number, if there is one; otherwise
"Unknown error". -/
def git_strerror_ref (val : Code → Int) (os : String) (num : Int) : String :=
  if num = val .GIT_EOSERR then os
  else
    match error_codes.find? (fun e => decide (val e.1 = num)) with
    | some e => e.2
    | none => "Unknown error"

/-- A numbering of the constants with pairwise distinct values, used to
instantiate the parameter: minus one minus the rank of the constant. -/
def sample_numbering : Code → Int
  | .GIT_ERROR => -1 | .GIT_ENOTOID => -2 | .GIT_ENOTFOUND => -3 | .GIT_ENOMEM => -4
  | .GIT_EOSERR => -5 | .GIT_EOBJTYPE => -6 | .GIT_EOBJCORRUPTED => -7
  | .GIT_ENOTAREPO => -8 | .GIT_EINVALIDTYPE => -9 | .GIT_EMISSINGOBJDATA => -10
  | .GIT_EPACKCORRUPTED => -11 | .GIT_EFLOCKFAIL => -12 | .GIT_EZLIB => -13
  | .GIT_EBUSY => -14 | .GIT_EINVALIDPATH => -15 | .GIT_EBAREINDEX => -16
  | .GIT_EINVALIDREFNAME => -17 | .GIT_EREFCORRUPTED => -18
  | .GIT_ETOONESTEDSYMREF => -19 | .GIT_EPACKEDREFSCORRUPTED => -20
  | .GIT_EREVWALKOVER => -21 | .GIT_EINVALIDREFSTATE => -22
  | .GIT_ENOTIMPLEMENTED => -23 | .GIT_EEXISTS => -24 | .GIT_EOVERFLOW => -25
  | .GIT_ENOTNUM => -26 | .GIT_EAMBIGUOUSOIDPREFIX => -27

/-! ## Chained error objects (`errors.c`, lines 102-168) -/

/-- A `char *`: null, a string literal (or other storage the caller owns), or
a block obtained from `malloc`. -/
inductive CharPtr
  | NULL
  | literal (s : String)
  | heap (a : Nat)
  deriving DecidableEq, Repr

/-- A `git_error *`: null, the address of the static `git_error_OOM`, or a
block obtained from `malloc`. -/
inductive ErrPtr
  | NULL
  | OOM
  | heap (a : Nat)
  deriving DecidableEq, Repr

/-- The `git_error` structure, with the four fields `errors.c` assigns. Its
declaration is not among the sources at hand; the positional initialiser of
`git_error_OOM` is read with the string as `msg`, the integer as `line_no`
and the two `NULL` as the pointers `next` and `filename`. -/
structure git_error where
  next : ErrPtr
  msg : CharPtr
  filename : CharPtr
  line_no : Int
  deriving DecidableEq, Repr

/-- The static object `git_error_OOM = {NULL, "Out of memory", NULL, 0}`. -/
def git_error_OOM : git_error :=
  { next := .NULL, msg := .literal "Out of memory", filename := .NULL, line_no := 0 }

/-- The dynamic memory the error objects live in, one region per type:
`errs a` is the live `git_error` block at address `a`, `strs b` the live
`char` block at address `b`; `none` marks an address that holds no live
block. -/
structure Heap where
  errs : Nat → Option git_error
  strs : Nat → Option (List Byte)

/-- The heap with no live block. -/
def Heap.empty : Heap := { errs := fun _ => none, strs := fun _ => none }

/-- Libc `free` on a `char *`: releases a heap block, does nothing on
`NULL`. -/
def free_msg (h : Heap) : CharPtr → Heap
  | .heap b => { h with strs := Function.update h.strs b none }
  | _ => h

/-- Libc `free` on a `git_error *`: releases a heap block, does nothing on
`NULL`. -/
def free_err (h : Heap) : ErrPtr → Heap
  | .heap a => { h with errs := Function.update h.errs a none }
  | _ => h

/-- A call to `free`, with the pointer passed. -/
inductive FreeCall
  | msg (p : CharPtr)
  | err (p : ErrPtr)
  deriving DecidableEq, Repr

/-- `git_error_oom()`: the address of the static object. -/
def git_error_oom : ErrPtr := .OOM

/-- `git_error_free(error)`. The `while` loop runs at most `fuel` times; the
result is the heap after the call and the calls to `free` in the order made,
or `none` when the fuel is spent or a released block is read. -/
def git_error_free : Nat → Heap → ErrPtr → Option (Heap × List FreeCall)
  | _, h, .NULL => some (h, [])
  | _, h, .OOM => some (h, [])
  | 0, _, .heap _ => none
  | fuel + 1, h, .heap a =>
    match h.errs a with
    | none => none
    | some e =>
      let next := e.next
      let h1 := free_msg h e.msg
      let h2 := free_err h1 (.heap a)
      match git_error_free fuel h2 next with
      | none => none
      | some (h3, calls) => some (h3, .msg e.msg :: .err (.heap a) :: calls)

/-- The wrapper `p_vsnprintf` of `posix.h` (not among the sources at hand),
taken to be C99 `vsnprintf`: what it stores. With a formatter that fails
(`fmt = none`) the array is left as it was; `git_error__new` reaches that case
with `size = 0` only, where nothing is stored in any case. -/
def p_vsnprintf (buf : List Byte) (size : Nat) (fmt : Option (List Byte)) : List Byte :=
  match fmt with
  | none => buf
  | some out => vsnprintf buf size out

/-- The wrapper `p_vsnprintf`, taken to be C99 `vsnprintf`: the `int` it
returns, the length of the complete expansion or `-1`. -/
def p_vsnprintf_ret (fmt : Option (List Byte)) : Int := vsnprintf_ret fmt

/-- `git_error__new(file, line_no, child, message, ...)` on the heap `h`, with
`fmt` the outcome of formatting `message` (`none` when the formatter fails,
else the complete expansion). The two calls of `git__malloc` (a wrapper of
`malloc` returning `NULL` on failure, not among the sources at hand) are
answered by `node_alloc` and `msg_alloc`: `none` for `NULL`, else the address
of the new block, whose indeterminate content is `node_junk`, respectively
the bytes `msg_junk 0, msg_junk 1, ...`. The `int msg_size` holds what
`p_vsnprintf` returned, unchecked; `msg_size + 1` is computed in `int` and
converted to the `size_t` that `git__malloc` and `p_vsnprintf` receive. The
result is the heap after the call and the pointer returned. -/
def git_error__new (h : Heap) (node_alloc : Option Nat) (node_junk : git_error)
    (msg_alloc : Option Nat) (msg_junk : Nat → Byte)
    (file : CharPtr) (line_no : Int) (child : ErrPtr) (fmt : Option (List Byte)) :
    Heap × ErrPtr :=
  if child = .OOM then (h, child)
  else
    match node_alloc with
    | none => (h, git_error_oom)
    | some a =>
      let h1 : Heap := { h with errs := Function.update h.errs a (some node_junk) }
      let msg_size : Int := p_vsnprintf_ret fmt
      let size : Nat := size_t_of_int (int_add msg_size 1)
      match msg_alloc with
      | none =>
        let h2 : Heap :=
          { h1 with errs := Function.update h1.errs a (some { node_junk with msg := .NULL }) }
        (free_err h2 (.heap a), git_error_oom)
      | some b =>
        let block : List Byte := (List.range size).map msg_junk
        let written : List Byte := p_vsnprintf block size fmt
        let e : git_error :=
          { node_junk with msg := .heap b, filename := file, line_no := line_no, next := child }
        ({ errs := Function.update h1.errs a (some e),
           strs := Function.update h1.strs b (some written) }, .heap a)

/-- Reading `p->next`: `none` when `p` is null or points to no live block. -/
def deref_next (h : Heap) : ErrPtr → Option ErrPtr
  | .NULL => none
  | .OOM => some git_error_OOM.next
  | .heap a => (h.errs a).map (fun e => e.next)

/-- Reading `p->msg`. -/
def deref_msg (h : Heap) : ErrPtr → Option CharPtr
  | .NULL => none
  | .OOM => some git_error_OOM.msg
  | .heap a => (h.errs a).map (fun e => e.msg)

/-- Checks that walking `next` from `p` visits exactly the objects `l`, in
this order, and then reaches `NULL`: `l` is the finite chain that starts at
`p`. -/
def is_chain (h : Heap) : ErrPtr → List ErrPtr → Bool
  | p, [] => decide (p = .NULL)
  | p, q :: l =>
    decide (q = p) &&
      match deref_next h p with
      | none => false
      | some n => is_chain h n l

/-- The calls to `free` that release the objects `l` of the heap `h` one
after the other: for each object its message, then the object. -/
def free_calls (h : Heap) : List ErrPtr → List FreeCall
  | [] => []
  | q :: l =>
    match deref_msg h q with
    | none => free_calls h l
    | some m => .msg m :: .err q :: free_calls h l

/-- A heap holding a chain of two errors, built by two calls of
`git_error__new` on the empty heap: the inner error at address 0, then the
outer error at address 1 wrapping it. -/
def sample_chain_heap : Heap :=
  (git_error__new
    (git_error__new Heap.empty (some 0) git_error_OOM (some 0) (fun _ => 0)
      (.literal "odb.c") 120 .NULL (some (bytes "inner"))).1
    (some 1) git_error_OOM (some 1) (fun _ => 0)
    (.literal "repository.c") 45 (.heap 0) (some (bytes "outer"))).1

/-- A message of `2^31` bytes, one more than `INT_MAX`: the letter A
repeated. -/
def oversized_message : List Byte := List.replicate 2147483648 65

/-! ## The status engine

`git_status_foreach` is called by the tests of `t18-status.c`, but its
implementation is not among the sources at hand. It is modelled here from the
specification of the status engine (path ordering §4.2, three-way merge and
classifier §4.6, public surface §4.7). -/

/-- Modelled from the spec: a path of §3, the bytes of a
forward-slash-separated name. -/
abbrev Path := List Byte

/-- Modelled from the spec: the comparator of §4.2, which the missing status
engine sorts every listing with. Byte-lexicographic; when one path is a strict
prefix of the other, the shorter sorts first. -/
def path_lt : Path → Path → Bool
  | [], [] => false
  | [], _ :: _ => true
  | _ :: _, [] => false
  | a :: p, b :: q => if a < b then true else if b < a then false else path_lt p q

/-- Modelled from the spec: the file modes of §3. -/
inductive FileMode
  | Regular | Executable | Symlink | Directory | Gitlink
  deriving DecidableEq, Repr

/-- Modelled from the spec: a tree entry `(path, mode, oid)` of §3; an object
id is an opaque value. -/
structure TreeEntry where
  path : Path
  mode : FileMode
  oid : Nat
  deriving DecidableEq, Repr

/-- Modelled from the spec: an index entry `(path, mode, oid, stat-cache)`. -/
structure IndexEntry where
  path : Path
  mode : FileMode
  oid : Nat
  size : Nat
  mtime : Nat
  deriving DecidableEq, Repr

/-- Modelled from the spec: a working entry `(path, mode, size, mtime)`. -/
structure WorkEntry where
  path : Path
  mode : FileMode
  size : Nat
  mtime : Nat
  deriving DecidableEq, Repr

/-- Modelled from the spec: the status bit `IndexNew`; `git2/status.h`, which
gives the six flags their values, is not among the sources at hand, and the
flags are taken as the six lowest bits, index half first. -/
def GIT_STATUS_INDEX_NEW : Nat := 1 <<< 0

/-- Modelled from the spec: the status bit `IndexModified` (see
`GIT_STATUS_INDEX_NEW`). -/
def GIT_STATUS_INDEX_MODIFIED : Nat := 1 <<< 1

/-- Modelled from the spec: the status bit `IndexDeleted` (see
`GIT_STATUS_INDEX_NEW`). -/
def GIT_STATUS_INDEX_DELETED : Nat := 1 <<< 2

/-- Modelled from the spec: the status bit `WtNew` (see
`GIT_STATUS_INDEX_NEW`). -/
def GIT_STATUS_WT_NEW : Nat := 1 <<< 3

/-- Modelled from the spec: the status bit `WtModified` (see
`GIT_STATUS_INDEX_NEW`). -/
def GIT_STATUS_WT_MODIFIED : Nat := 1 <<< 4

/-- Modelled from the spec: the status bit `WtDeleted` (see
`GIT_STATUS_INDEX_NEW`). -/
def GIT_STATUS_WT_DELETED : Nat := 1 <<< 5

/-- The success code `GIT_SUCCESS` of `git2/errors.h` (not among the sources
at hand), taken to be zero, the value of a call that passes. -/
def GIT_SUCCESS : Int := 0

/-- Modelled from the spec: the index half of the flag pair, by the first
table of §4.6. -/
def index_half : Option TreeEntry → Option IndexEntry → Nat
  | none, none => 0
  | none, some _ => GIT_STATUS_INDEX_NEW
  | some _, none => GIT_STATUS_INDEX_DELETED
  | some t, some i =>
    if t.mode = i.mode ∧ t.oid = i.oid then 0 else GIT_STATUS_INDEX_MODIFIED

/-- Modelled from the spec: what hashing a working file gives (§4.1, §4.6):
its object id, a hashing error on a file that exists and is readable, or an
unreadable file. -/
inductive HashResult
  | oid (o : Nat)
  | failed
  | unreadable
  deriving DecidableEq, Repr

/-- Modelled from the spec: the working half of the flag pair, by the second
table of §4.6 with the stat shortcut; `none` is the `OsError` of an
unreadable file. -/
def work_half (hash_file : Path → HashResult) :
    Option IndexEntry → Option WorkEntry → Option Nat
  | none, none => some 0
  | none, some _ => some GIT_STATUS_WT_NEW
  | some _, none => some GIT_STATUS_WT_DELETED
  | some i, some w =>
    if i.size = w.size ∧ i.mtime = w.mtime ∧ i.mode = w.mode then some 0
    else
      match hash_file w.path with
      | .oid o => some (if o = i.oid then 0 else GIT_STATUS_WT_MODIFIED)
      | .failed => some GIT_STATUS_WT_MODIFIED
      | .unreadable => none

/-- Modelled from the spec: one step of the merge of §4.6 gathers, for the
minimum path, the entry each of the three listings has at that path. -/
structure Row where
  path : Path
  t : Option TreeEntry
  i : Option IndexEntry
  w : Option WorkEntry
  deriving DecidableEq, Repr

/-- Modelled from the spec: the current path of a cursor of the merge of
§4.6, `none` when its listing is exhausted. -/
def head_key {α : Type} (key : α → Path) : List α → Option Path
  | [] => none
  | e :: _ => some (key e)

/-- Modelled from the spec: the smaller of two cursor paths under `path_lt`;
an exhausted cursor does not take part (§4.6). -/
def opt_min : Option Path → Option Path → Option Path
  | none, b => b
  | a, none => a
  | some a, some b => if path_lt b a then some b else some a

/-- Modelled from the spec: the minimum current path across the cursors that
are not exhausted (§4.6). -/
def min_key (T : List TreeEntry) (I : List IndexEntry) (W : List WorkEntry) : Option Path :=
  opt_min (opt_min (head_key TreeEntry.path T) (head_key IndexEntry.path I))
    (head_key WorkEntry.path W)

/-- Modelled from the spec: a cursor yields its entry when its current path
equals the minimum `k`, and then advances (§4.6). -/
def gather {α : Type} (key : α → Path) (k : Path) : List α → Option α × List α
  | [] => (none, [])
  | e :: rest => if key e = k then (some e, rest) else (none, e :: rest)

/-- Modelled from the spec: the three-way merge of §4.6 over the tree, index
and working listings, at most `fuel` steps. -/
def merge_rows : Nat → List TreeEntry → List IndexEntry → List WorkEntry → List Row
  | 0, _, _, _ => []
  | fuel + 1, T, I, W =>
    match min_key T I W with
    | none => []
    | some k =>
      { path := k,
        t := (gather TreeEntry.path k T).1,
        i := (gather IndexEntry.path k I).1,
        w := (gather WorkEntry.path k W).1 }
        :: merge_rows fuel (gather TreeEntry.path k T).2 (gather IndexEntry.path k I).2
            (gather WorkEntry.path k W).2

/-- Modelled from the spec: how an enumeration ends (§4.7), `ok` or the error
of a component. -/
inductive Outcome
  | ok
  | error (c : Code)
  deriving DecidableEq, Repr

/-- Modelled from the spec: what an enumeration of §4.7 leaves, namely the
payload after the last callback, the outcome, and the `(path, flags)` pairs
passed to the callback, in order. -/
structure Enumeration (σ : Type) where
  payload : σ
  outcome : Outcome
  calls : List (Path × Nat)

/-- Modelled from the spec: classifying the merged rows one after the other
and handing each row with non-zero flags to the callback (§4.6, §4.7). An
unreadable file ends the enumeration with `OsError`; a non-zero return of the
callback ends it early with `ok`. The callback `cb` maps the payload, the path
and the flags to the new payload and its return value. -/
def emit_rows {σ : Type} (hash_file : Path → HashResult) (cb : σ → Path → Nat → σ × Int) :
    List Row → σ → Enumeration σ
  | [], s => { payload := s, outcome := .ok, calls := [] }
  | r :: rest, s =>
    match work_half hash_file r.i r.w with
    | none => { payload := s, outcome := .error .GIT_EOSERR, calls := [] }
    | some wt =>
      if index_half r.t r.i ||| wt = 0 then emit_rows hash_file cb rest s
      else
        if (cb s r.path (index_half r.t r.i ||| wt)).2 ≠ 0 then
          { payload := (cb s r.path (index_half r.t r.i ||| wt)).1, outcome := .ok,
            calls := [(r.path, index_half r.t r.i ||| wt)] }
        else
          { emit_rows hash_file cb rest (cb s r.path (index_half r.t r.i ||| wt)).1 with
            calls := (r.path, index_half r.t r.i ||| wt)
              :: (emit_rows hash_file cb rest
                    (cb s r.path (index_half r.t r.i ||| wt)).1).calls }

/-- Modelled from the spec: `git_status_foreach(repo, callback, payload)`
(§4.7), whose implementation is not among the sources at hand. The repository
is given by its three listings and by the hashing of its working files; the
merge gets one step of fuel per entry, which is enough to exhaust the three
listings. -/
def git_status_foreach {σ : Type} (T : List TreeEntry) (I : List IndexEntry)
    (W : List WorkEntry) (hash_file : Path → HashResult)
    (cb : σ → Path → Nat → σ × Int) (payload : σ) : Enumeration σ :=
  emit_rows hash_file cb (merge_rows (T.length + I.length + W.length) T I W) payload

/-- Modelled from the spec: the check that each path of a sequence sorts
before the next under the comparator of §4.2. -/
def is_ascending : List Path → Bool
  | [] => true
  | [_] => true
  | a :: b :: l => path_lt a b && is_ascending (b :: l)

/-- Modelled from the spec: strictly ascending under the comparator of §4.2,
each path sorting before the next. -/
def strictly_ascending (l : List Path) : Prop :=
  is_ascending l = true

instance (l : List Path) : Decidable (strictly_ascending l) :=
  inferInstanceAs (Decidable (is_ascending l = true))

/-! ## The status tests (`t18-status.c`) -/

/-- Libc `strcmp` on two C strings: zero when equal, negative when the first
sorts before the second byte by byte, positive otherwise. -/
def strcmp (a b : Path) : Int :=
  if a = b then 0 else if path_lt a b then -1 else 1

/-- The array `entry_paths0`. -/
def entry_paths0 : List Path :=
  [ bytes "file_deleted",
    bytes "modified_file",
    bytes "new_file",
    bytes "staged_changes",
    bytes "staged_changes_file_deleted",
    bytes "staged_changes_modified_file",
    bytes "staged_delete_file_deleted",
    bytes "staged_delete_modified_file",
    bytes "staged_new_file",
    bytes "staged_new_file_deleted_file",
    bytes "staged_new_file_modified_file",
    bytes "subdir/deleted_file",
    bytes "subdir/modified_file",
    bytes "subdir/new_file" ]

/-- The array `entry_statuses0`. -/
def entry_statuses0 : List Nat :=
  [ GIT_STATUS_WT_DELETED,
    GIT_STATUS_WT_MODIFIED,
    GIT_STATUS_WT_NEW,
    GIT_STATUS_INDEX_MODIFIED,
    GIT_STATUS_INDEX_MODIFIED ||| GIT_STATUS_WT_DELETED,
    GIT_STATUS_INDEX_MODIFIED ||| GIT_STATUS_WT_MODIFIED,
    GIT_STATUS_INDEX_DELETED,
    GIT_STATUS_INDEX_DELETED ||| GIT_STATUS_WT_NEW,
    GIT_STATUS_INDEX_NEW,
    GIT_STATUS_INDEX_NEW ||| GIT_STATUS_WT_DELETED,
    GIT_STATUS_INDEX_NEW ||| GIT_STATUS_WT_MODIFIED,
    GIT_STATUS_WT_DELETED,
    GIT_STATUS_WT_MODIFIED,
    GIT_STATUS_WT_NEW ]

/-- The macro `ENTRY_COUNT0`. -/
def ENTRY_COUNT0 : Int := 14

/-- The array `entry_paths2`. -/
def entry_paths2 : List Path :=
  [ bytes "current_file",
    bytes "file_deleted",
    bytes "modified_file",
    bytes "staged_changes",
    bytes "staged_changes_file_deleted",
    bytes "staged_changes_modified_file",
    bytes "staged_delete_file_deleted",
    bytes "staged_delete_modified_file",
    bytes "staged_new_file",
    bytes "staged_new_file_deleted_file",
    bytes "staged_new_file_modified_file",
    bytes "subdir/current_file",
    bytes "subdir/deleted_file",
    bytes "subdir/modified_file" ]

/-- The array `entry_statuses2`. -/
def entry_statuses2 : List Nat :=
  [ GIT_STATUS_WT_DELETED,
    GIT_STATUS_WT_DELETED,
    GIT_STATUS_WT_DELETED,
    GIT_STATUS_WT_DELETED ||| GIT_STATUS_INDEX_MODIFIED,
    GIT_STATUS_WT_DELETED ||| GIT_STATUS_INDEX_MODIFIED,
    GIT_STATUS_WT_DELETED ||| GIT_STATUS_INDEX_MODIFIED,
    GIT_STATUS_INDEX_DELETED,
    GIT_STATUS_INDEX_DELETED,
    GIT_STATUS_WT_DELETED ||| GIT_STATUS_INDEX_NEW,
    GIT_STATUS_WT_DELETED ||| GIT_STATUS_INDEX_NEW,
    GIT_STATUS_WT_DELETED ||| GIT_STATUS_INDEX_NEW,
    GIT_STATUS_WT_DELETED,
    GIT_STATUS_WT_DELETED,
    GIT_STATUS_WT_DELETED ]

/-- The macro `ENTRY_COUNT2`. -/
def ENTRY_COUNT2 : Int := 14

/-- The array `entry_paths3`. -/
def entry_paths3 : List Path :=
  [ bytes ".HEADER",
    bytes "42-is-not-prime.sigh",
    bytes "README.md",
    bytes "current_file",
    bytes "current_file/current_file",
    bytes "current_file/modified_file",
    bytes "current_file/new_file",
    bytes "file_deleted",
    bytes "modified_file",
    bytes "new_file",
    bytes "staged_changes",
    bytes "staged_changes_file_deleted",
    bytes "staged_changes_modified_file",
    bytes "staged_delete_file_deleted",
    bytes "staged_delete_modified_file",
    bytes "staged_new_file",
    bytes "staged_new_file_deleted_file",
    bytes "staged_new_file_modified_file",
    bytes "subdir",
    bytes "subdir/current_file",
    bytes "subdir/deleted_file",
    bytes "subdir/modified_file" ]

/-- The array `entry_statuses3`. -/
def entry_statuses3 : List Nat :=
  [ GIT_STATUS_WT_NEW,
    GIT_STATUS_WT_NEW,
    GIT_STATUS_WT_NEW,
    GIT_STATUS_WT_DELETED,
    GIT_STATUS_WT_NEW,
    GIT_STATUS_WT_NEW,
    GIT_STATUS_WT_NEW,
    GIT_STATUS_WT_DELETED,
    GIT_STATUS_WT_MODIFIED,
    GIT_STATUS_WT_NEW,
    GIT_STATUS_INDEX_MODIFIED,
    GIT_STATUS_WT_DELETED ||| GIT_STATUS_INDEX_MODIFIED,
    GIT_STATUS_WT_MODIFIED ||| GIT_STATUS_INDEX_MODIFIED,
    GIT_STATUS_INDEX_DELETED,
    GIT_STATUS_WT_NEW ||| GIT_STATUS_INDEX_DELETED,
    GIT_STATUS_INDEX_NEW,
    GIT_STATUS_WT_DELETED ||| GIT_STATUS_INDEX_NEW,
    GIT_STATUS_WT_MODIFIED ||| GIT_STATUS_INDEX_NEW,
    GIT_STATUS_WT_NEW,
    GIT_STATUS_WT_DELETED,
    GIT_STATUS_WT_DELETED,
    GIT_STATUS_WT_DELETED ]

/-- The macro `ENTRY_COUNT3`. -/
def ENTRY_COUNT3 : Int := 22

/-- The payload `struct status_entry_counts` of `status_cb`. -/
structure status_entry_counts where
  wrong_status_flags_count : Int
  wrong_sorted_path : Int
  entry_count : Int
  expected_statuses : List Nat
  expected_paths : List Path
  expected_entry_count : Int
  deriving DecidableEq, Repr

/-- The callback `status_cb`: compares the row with the expected path and
flags at position `entry_count`, counts the mismatches, and advances
`entry_count` on every path through the `exit` label. -/
def status_cb (counts : status_entry_counts) (path : Path) (status_flags : Nat) :
    status_entry_counts × Int :=
  if counts.entry_count ≥ counts.expected_entry_count then
    ({ counts with
        wrong_status_flags_count := counts.wrong_status_flags_count + 1,
        entry_count := counts.entry_count + 1 }, GIT_SUCCESS)
  else if strcmp path (counts.expected_paths.getD counts.entry_count.toNat []) ≠ 0 then
    ({ counts with
        wrong_sorted_path := counts.wrong_sorted_path + 1,
        entry_count := counts.entry_count + 1 }, GIT_SUCCESS)
  else if status_flags ≠ counts.expected_statuses.getD counts.entry_count.toNat 0 then
    ({ counts with
        wrong_status_flags_count := counts.wrong_status_flags_count + 1,
        entry_count := counts.entry_count + 1 }, GIT_SUCCESS)
  else
    ({ counts with entry_count := counts.entry_count + 1 }, GIT_SUCCESS)

/-- The payload a test hands to `git_status_foreach`: the counters cleared by
`memset`, then the three expectation fields set. -/
def counts_init (expected_entry_count : Int) (expected_paths : List Path)
    (expected_statuses : List Nat) : status_entry_counts :=
  { wrong_status_flags_count := 0, wrong_sorted_path := 0, entry_count := 0,
    expected_statuses := expected_statuses, expected_paths := expected_paths,
    expected_entry_count := expected_entry_count }

/-- The three `must_be_true` checks a test makes on the payload after the
enumeration. -/
def counts_pass (counts : status_entry_counts) : Bool :=
  decide (counts.entry_count = counts.expected_entry_count)
    && decide (counts.wrong_status_flags_count = 0)
    && decide (counts.wrong_sorted_path = 0)

/-- The callback `status_cb1`. Its payload is the address of an `int`; `mem`
is the memory of `int` objects. The statement `(void) *count++;` applies `++`
to the local pointer `count`, reads the `int` the old pointer designates and
discards the value: no `int` is written. -/
def status_cb1 (payload : Nat) (mem : Nat → Int) (_path : Path) (_status_flags : Nat) :
    (Nat → Int) × Int :=
  let count : Nat := payload
  let _value : Int := mem count
  let _count : Nat := count + 1
  (mem, GIT_SUCCESS)

/-- The callback the test describes, for comparison: a row counter, which adds
one to the `int` its payload points to, as `(*count)++` would. -/
def status_cb1_counting (payload : Nat) (mem : Nat → Int) (_path : Path)
    (_status_flags : Nat) : (Nat → Int) × Int :=
  (Function.update mem payload (mem payload + 1), GIT_SUCCESS)

/-! ## The status fixture

The repository under `resources/status` is not among the sources at hand. Its
three listings are reconstructed from the rows of scenario S-base of the
specification (§8) and from the files the tests delete, rename and create. -/

/-- Modelled from the spec: a regular file of the committed tree. -/
def tree_file (p : String) (oid : Nat) : TreeEntry :=
  { path := bytes p, mode := .Regular, oid := oid }

/-- Modelled from the spec: a regular file of the index, with its stat
cache. -/
def index_file (p : String) (oid size mtime : Nat) : IndexEntry :=
  { path := bytes p, mode := .Regular, oid := oid, size := size, mtime := mtime }

/-- Modelled from the spec: a regular file of the working tree. -/
def work_file (p : String) (size mtime : Nat) : WorkEntry :=
  { path := bytes p, mode := .Regular, size := size, mtime := mtime }

/-- Modelled from the spec: the committed tree of the fixture (scenario
S-base of §8); committed contents have object id 1. -/
def fixture_tree : List TreeEntry :=
  [ tree_file "current_file" 1,
    tree_file "file_deleted" 1,
    tree_file "modified_file" 1,
    tree_file "staged_changes" 1,
    tree_file "staged_changes_file_deleted" 1,
    tree_file "staged_changes_modified_file" 1,
    tree_file "staged_delete_file_deleted" 1,
    tree_file "staged_delete_modified_file" 1,
    tree_file "subdir/current_file" 1,
    tree_file "subdir/deleted_file" 1,
    tree_file "subdir/modified_file" 1 ]

/-- Modelled from the spec: the index of the fixture (scenario S-base of §8);
staged contents have object id 2, size 20. -/
def fixture_index : List IndexEntry :=
  [ index_file "current_file" 1 10 100,
    index_file "file_deleted" 1 10 100,
    index_file "modified_file" 1 10 100,
    index_file "staged_changes" 2 20 100,
    index_file "staged_changes_file_deleted" 2 20 100,
    index_file "staged_changes_modified_file" 2 20 100,
    index_file "staged_new_file" 2 20 100,
    index_file "staged_new_file_deleted_file" 2 20 100,
    index_file "staged_new_file_modified_file" 2 20 100,
    index_file "subdir/current_file" 1 10 100,
    index_file "subdir/deleted_file" 1 10 100,
    index_file "subdir/modified_file" 1 10 100 ]

/-- Modelled from the spec: the working tree of the fixture as shipped
(scenario S-base of §8): the eight files and the three files of `subdir/`
that test `statuscb2` deletes. Files edited after staging have size 30. -/
def fixture_work : List WorkEntry :=
  [ work_file "current_file" 10 100,
    work_file "modified_file" 30 200,
    work_file "new_file" 30 200,
    work_file "staged_changes" 20 100,
    work_file "staged_changes_modified_file" 30 200,
    work_file "staged_delete_modified_file" 30 200,
    work_file "staged_new_file" 20 100,
    work_file "staged_new_file_modified_file" 30 200,
    work_file "subdir/current_file" 10 100,
    work_file "subdir/modified_file" 30 200,
    work_file "subdir/new_file" 30 200 ]

/-- Modelled from the spec: the working tree after the purge of test
`statuscb2` (scenario S-purged): every file unlinked, `subdir` removed. -/
def purged_work : List WorkEntry := []

/-- Modelled from the spec: the working tree after the renames of test
`statuscb3` (scenario S-renamed): the file `current_file` and the directory
`subdir` swapped, three files created at the root. -/
def renamed_work : List WorkEntry :=
  [ work_file ".HEADER" 5 300,
    work_file "42-is-not-prime.sigh" 5 300,
    work_file "README.md" 5 300,
    work_file "current_file/current_file" 10 100,
    work_file "current_file/modified_file" 30 200,
    work_file "current_file/new_file" 30 200,
    work_file "modified_file" 30 200,
    work_file "new_file" 30 200,
    work_file "staged_changes" 20 100,
    work_file "staged_changes_modified_file" 30 200,
    work_file "staged_delete_modified_file" 30 200,
    work_file "staged_new_file" 20 100,
    work_file "staged_new_file_modified_file" 30 200,
    work_file "subdir" 10 100 ]

/-- Modelled from the spec: hashing a working file of the fixture. Whenever
the classifier hashes one, its stat data differ from the index, and its
content, edited after staging, has object id 3. -/
def fixture_hash : Path → HashResult :=
  fun _ => .oid 3

/-- The callback that only records: it leaves the payload alone and asks the
enumeration to go on. -/
def record_cb : Unit → Path → Nat → Unit × Int :=
  fun _ _ _ => ((), GIT_SUCCESS)

/-- The body of test `statuscb0` after the repository is opened: the
enumeration with `status_cb`, then the checks. -/
def statuscb0 : Bool :=
  let r := git_status_foreach fixture_tree fixture_index fixture_work fixture_hash
    status_cb (counts_init ENTRY_COUNT0 entry_paths0 entry_statuses0)
  decide (r.outcome = .ok) && counts_pass r.payload

/-- The body of test `statuscb2` after the purge. -/
def statuscb2 : Bool :=
  let r := git_status_foreach fixture_tree fixture_index purged_work fixture_hash
    status_cb (counts_init ENTRY_COUNT2 entry_paths2 entry_statuses2)
  decide (r.outcome = .ok) && counts_pass r.payload

/-- The body of test `statuscb3` after the renames. -/
def statuscb3 : Bool :=
  let r := git_status_foreach fixture_tree fixture_index renamed_work fixture_hash
    status_cb (counts_init ENTRY_COUNT3 entry_paths3 entry_statuses3)
  decide (r.outcome = .ok) && counts_pass r.payload

/-- A heap holding one error whose `next` is the out-of-memory object. -/
def sample_oom_tail_heap : Heap :=
  { errs := Function.update (fun _ => none) 0
      (some { next := .OOM, msg := .heap 0, filename := .literal "odb.c", line_no := 7 }),
    strs := Function.update (fun _ => none) 0 (some (bytes "read failed" ++ [0])) }

/-! # Properties -/

/-! ## C strings -/

theorem c_str_append_nul (w r : List Byte) : c_str (w ++ 0 :: r) = c_str w := by
  induction w with
  | nil => simp [c_str, List.takeWhile]
  | cons a w ih =>
    unfold c_str at ih ⊢
    by_cases h : a = 0
    · subst h; simp [List.takeWhile]
    · simp [List.takeWhile, h, ih]

theorem c_str_take (n : Nat) (l : List Byte) : c_str (l.take n) = (c_str l).take n := by
  unfold c_str
  exact (List.take_takeWhile _ n).symm

theorem c_str_nul_free (l : List Byte) : ∀ b ∈ c_str l, b ≠ 0 := by
  intro b hb
  have := List.mem_takeWhile_imp hb
  simpa using this

theorem c_str_eq_self {l : List Byte} (h : ∀ b ∈ l, b ≠ 0) : c_str l = l := by
  unfold c_str
  rw [List.takeWhile_eq_self_iff]
  intro b hb
  simpa using h b hb

theorem c_str_idem (l : List Byte) : c_str (c_str l) = c_str l :=
  c_str_eq_self (c_str_nul_free l)

theorem rethrow_sep_nul_free : ∀ b ∈ rethrow_sep, b ≠ 0 := by
  decide

theorem c_str_vsnprintf (buf out : List Byte) (size : Nat) (h : 0 < size) :
    c_str (vsnprintf buf size out) = (c_str out).take (size - 1) := by
  unfold vsnprintf
  rw [if_neg (by omega), c_str_append_nul, c_str_take]

theorem c_str_strdup (s : List Byte) : c_str (strdup s) = c_str s := by
  unfold strdup
  rw [c_str_append_nul, c_str_idem]

theorem length_vsnprintf (buf out : List Byte) (size : Nat) (h : size ≤ buf.length) :
    (vsnprintf buf size out).length = buf.length := by
  unfold vsnprintf
  split
  · rfl
  · simp only [List.length_append, List.length_cons, List.length_drop, List.length_take]
    omega

theorem headD_eq_zero_iff (l : List Byte) : l.headD 0 = 0 ↔ c_str l = [] := by
  cases l with
  | nil => simp [c_str]
  | cons a l =>
    by_cases h : a = 0
    · simp [c_str, List.takeWhile, h]
    · have hb : (a != 0) = true := by simpa using h
      simp [c_str, List.takeWhile, hb, h]

theorem git_lasterror_eq (g : List Byte) :
    git_lasterror g = if c_str g = [] then none else some (c_str g) := by
  unfold git_lasterror
  simp only [headD_eq_zero_iff]

/-- The C string left in the buffer by `git___rethrow`. -/
theorem c_str_rethrow (g stack out : List Byte) :
    c_str (git___rethrow g stack out)
      = ((c_str out).take 1023 ++ rethrow_sep ++ c_str g).take 1023 := by
  unfold git___rethrow
  simp only []
  rw [c_str_vsnprintf _ _ _ (by decide), c_str_vsnprintf _ _ _ (by decide), c_str_strdup]
  have hnf : ∀ b ∈ (c_str out).take (1024 - 1) ++ rethrow_sep ++ c_str g, b ≠ 0 := by
    intro b hb
    rcases List.mem_append.1 hb with hb | hb
    · rcases List.mem_append.1 hb with hb | hb
      · exact c_str_nul_free out b (List.mem_of_mem_take hb)
      · exact rethrow_sep_nul_free b hb
    · exact c_str_nul_free g b hb
  rw [c_str_eq_self hnf]
  rfl

theorem c_str_throw (g out : List Byte) :
    c_str (git___throw g out) = (c_str out).take 1023 := by
  unfold git___throw
  rw [c_str_vsnprintf _ _ _ (by decide)]
  rfl

theorem vsnprintf_terminated (buf out : List Byte) (size : Nat) (h : 0 < size) :
    (vsnprintf buf size out)[(out.take (size - 1)).length]? = some 0 := by
  unfold vsnprintf
  rw [if_neg (by omega), List.getElem?_append_right (le_refl _)]
  simp

/-! ## The last-error buffer -/

/-- C7: `git___rethrow` leaves in the buffer the first 1023 bytes of
`new' ++ " \n\t- " ++ old`, where `new'` is the first 1023 bytes of the new
message (`c_str out`, the C string the format expands to) and `old` the C
string the buffer held; a new message of 1023 bytes or more therefore drops
the old one entirely; the string never exceeds 1023 bytes, its NUL lies inside
the array and the array keeps its 1024 bytes. -/
theorem git___rethrow_composes (g stack out : List Byte)
    (hg : g.length = g_last_error_size) :
    c_str (git___rethrow g stack out)
        = ((c_str out).take 1023 ++ rethrow_sep ++ c_str g).take 1023
    ∧ rethrow_sep = bytes " \n\t- "
    ∧ (1023 ≤ (c_str out).length →
        c_str (git___rethrow g stack out) = (c_str out).take 1023)
    ∧ (c_str (git___rethrow g stack out)).length ≤ 1023
    ∧ (git___rethrow g stack out)[(c_str (git___rethrow g stack out)).length]? = some 0
    ∧ (git___rethrow g stack out).length = g_last_error_size := by
  have hc := c_str_rethrow g stack out
  refine ⟨hc, by decide, ?_, ?_, ?_, ?_⟩
  · intro hlen
    rw [hc, List.append_assoc, List.take_append_of_le_length (by simp; omega),
      List.take_take]
    simp
  · rw [hc, List.length_take]
    omega
  · have hnf : ∀ b ∈ c_str (vsnprintf stack 1024 out) ++ rethrow_sep
        ++ c_str (strdup g), b ≠ 0 := by
      intro b hb
      rcases List.mem_append.1 hb with hb | hb
      · rcases List.mem_append.1 hb with hb | hb
        · exact c_str_nul_free _ b hb
        · exact rethrow_sep_nul_free b hb
      · exact c_str_nul_free _ b hb
    have hterm := vsnprintf_terminated g
      (c_str (vsnprintf stack 1024 out) ++ rethrow_sep ++ c_str (strdup g))
      g_last_error_size (by decide)
    have hlen : c_str (git___rethrow g stack out)
        = (c_str (vsnprintf stack 1024 out) ++ rethrow_sep
            ++ c_str (strdup g)).take (g_last_error_size - 1) := by
      unfold git___rethrow
      simp only []
      rw [c_str_vsnprintf _ _ _ (by decide), c_str_eq_self hnf]
    rw [hlen]
    exact hterm
  · unfold git___rethrow
    exact (length_vsnprintf _ _ _ (le_of_eq hg.symm)).trans hg

/-- Witness of `git___rethrow_composes`: the zero-initialised buffer. -/
theorem git___rethrow_composes_witness :
    c_str (git___rethrow g_last_error_init [] (bytes "B"))
      = ((c_str (bytes "B")).take 1023 ++ rethrow_sep ++ c_str g_last_error_init).take 1023 :=
  (git___rethrow_composes g_last_error_init [] (bytes "B") (List.length_replicate _ _)).1

/-- C9: `git_lasterror` is `NULL` exactly when the buffer holds the empty
string; after `git___throw` it is `NULL` when the message (`c_str out`, the C
string the format expands to) is empty and the first 1023 bytes of the
message otherwise, whatever the buffer held before; after `git_clearerror` it
is `NULL`; after `git___rethrow` it is never `NULL`, and with an empty new
message over an empty buffer it is the bare separator. -/
theorem git_lasterror_after (g stack out : List Byte) :
    (git_lasterror g = none ↔ c_str g = [])
    ∧ git_lasterror (git___throw g out)
        = (if c_str out = [] then none else some ((c_str out).take 1023))
    ∧ git_lasterror (git_clearerror g) = none
    ∧ git_lasterror (git___rethrow g stack out) ≠ none
    ∧ git_lasterror (git___rethrow (git_clearerror g) stack []) = some rethrow_sep := by
  refine ⟨?_, ?_, ?_, ?_, ?_⟩
  · rw [git_lasterror_eq]
    by_cases h : c_str g = []
    · simp [h]
    · simp [h]
  · rw [git_lasterror_eq, c_str_throw]
    by_cases h : c_str out = []
    · simp [h]
    · have h2 : (c_str out).take 1023 ≠ [] := by
        cases hc : c_str out with
        | nil => exact absurd hc h
        | cons a l => simp
      simp [h, h2]
  · unfold git_lasterror git_clearerror
    cases g <;> simp
  · rw [git_lasterror_eq, c_str_rethrow]
    have h2 : ((c_str out).take 1023 ++ rethrow_sep ++ c_str g).take 1023 ≠ [] := by
      cases hc : (c_str out).take 1023 with
      | nil => simp [rethrow_sep]
      | cons a l => simp
    rw [if_neg h2]
    exact Option.some_ne_none _
  · have hclr : c_str (git_clearerror g) = [] := by
      unfold git_clearerror c_str
      cases g <;> simp [List.takeWhile]
    rw [git_lasterror_eq, c_str_rethrow, hclr]
    decide

/-- C1, as stated, fails: after `git___throw` of "A" and `git___rethrow` of
"B" the last error is "B", the continuation, then "A"; it is not "A", the
continuation, then "B". -/
theorem rethrow_innermost_first_fails :
    git_lasterror (git___rethrow (git___throw g_last_error_init (bytes "A")) [] (bytes "B"))
        = some (bytes "B \n\t- A")
    ∧ git_lasterror (git___rethrow (git___throw g_last_error_init (bytes "A")) [] (bytes "B"))
        ≠ some (bytes "A" ++ rethrow_sep ++ bytes "B") := by
  have h : git_lasterror
      (git___rethrow (git___throw g_last_error_init (bytes "A")) [] (bytes "B"))
      = some (bytes "B \n\t- A") := by
    rw [git_lasterror_eq, c_str_rethrow, c_str_throw]
    decide
  refine ⟨h, ?_⟩
  rw [h]
  decide

/-- C1, amended: after `git___throw` records the inner message `A` and
`git___rethrow` adds the outer message `B` (the two and the separator fitting
in 1023 bytes), `git_lasterror` returns `B`, then space-newline-tab-dash-space,
then `A`: the newest, outermost message comes first. -/
theorem rethrow_after_throw (g stack A B : List Byte)
    (hfit : (c_str B).length + rethrow_sep.length + (c_str A).length ≤ 1023) :
    git_lasterror (git___rethrow (git___throw g A) stack B)
      = some (c_str B ++ rethrow_sep ++ c_str A) := by
  have hs : rethrow_sep.length = 5 := rfl
  rw [hs] at hfit
  have h5 : (c_str B ++ rethrow_sep ++ c_str A).length ≤ 1023 := by
    simp only [List.length_append, hs]
    omega
  rw [git_lasterror_eq, c_str_rethrow, c_str_throw,
    List.take_of_length_le (l := c_str B) (by omega),
    List.take_of_length_le (l := c_str A) (by omega),
    List.take_of_length_le h5]
  have hne : c_str B ++ rethrow_sep ++ c_str A ≠ [] := by
    simp [rethrow_sep]
  rw [if_neg hne]

/-- Witness of `rethrow_after_throw`: inner message "A", outer message "B". -/
theorem rethrow_after_throw_witness :
    git_lasterror (git___rethrow (git___throw g_last_error_init (bytes "A")) [] (bytes "B"))
      = some (c_str (bytes "B") ++ rethrow_sep ++ c_str (bytes "A")) :=
  rethrow_after_throw g_last_error_init [] (bytes "A") (bytes "B") (by decide)

/-! ## `git_strerror` -/

theorem git_strerror_loop_spec (val : Code → Int) (os : String) (num : Int) :
    ∀ n i, i + n = error_codes.length →
      (git_strerror_loop val num n i).text os
        = (match (error_codes.drop i).find? (fun e => decide (val e.1 = num)) with
            | some e => e.2
            | none => "Unknown error") := by
  intro n
  induction n with
  | zero =>
    intro i hi
    have : error_codes.drop i = [] := List.drop_of_length_le (by omega)
    rw [this]
    rfl
  | succ n ih =>
    intro i hi
    have hlt : i < error_codes.length := by omega
    rw [List.drop_eq_getElem_cons hlt]
    unfold git_strerror_loop
    rw [List.getElem?_eq_getElem hlt]
    simp only []
    by_cases h : num = val (error_codes[i]).1
    · rw [if_pos h, List.find?_cons_of_pos _ (by simp [h])]
      simp only [StrRef.text]
      rw [List.getElem?_eq_getElem hlt]
    · rw [if_neg h, List.find?_cons_of_neg _ (by simpa using fun h2 => h h2.symm)]
      exact ih (i + 1) (by omega)

theorem git_strerror_loop_hit (val : Code → Int) (num : Int) :
    ∀ n i j, git_strerror_loop val num n i = .table j →
      ∃ e, error_codes[j]? = some e ∧ num = val e.1 := by
  intro n
  induction n with
  | zero => intro i j h; simp [git_strerror_loop] at h
  | succ n ih =>
    intro i j h
    unfold git_strerror_loop at h
    cases he : error_codes[i]? with
    | none => rw [he] at h; simp at h
    | some e =>
      rw [he] at h
      simp only [] at h
      by_cases hn : num = val e.1
      · rw [if_pos hn] at h
        injection h with h
        subst h
        exact ⟨e, he, hn⟩
      · rw [if_neg hn] at h
        exact ih (i + 1) j h

theorem consult_text_only_at_eoserr :
    ∀ e ∈ error_codes, e.2 = "Consult the OS error information." → e.1 = Code.GIT_EOSERR := by
  decide

theorem sample_numbering_injective : Function.Injective sample_numbering := by
  intro a b h
  cases a <;> cases b <;> first | rfl | exact absurd h (by decide)

/-- C4: under any numbering `val` of the error constants with pairwise
distinct values, the text `git_strerror` returns equals the one of the
reference definition (operating-system message for `GIT_EOSERR`, else the
message of the first table entry with that number, else "Unknown error"); for
`GIT_EOSERR` the returned pointer is the one of `strerror(errno)`; the table
entry of `GIT_EOSERR` (index 4, "Consult the OS error information.") is never
the entry returned, nor is its text the text of a returned entry; and
`GIT_EINVALIDPATH` resolves to entry 14, whose text is the one of the second
`GIT_EINVALIDPATH` entry (index 20). -/
theorem git_strerror_refines (val : Code → Int) (hval : Function.Injective val)
    (os : String) (num : Int) :
    (git_strerror val num).text os = git_strerror_ref val os num
    ∧ (num = val .GIT_EOSERR → git_strerror val num = .strerror_errno)
    ∧ error_codes[4]? = some (.GIT_EOSERR, "Consult the OS error information.")
    ∧ git_strerror val num ≠ .table 4
    ∧ (∀ j e, git_strerror val num = .table j → error_codes[j]? = some e →
        e.2 ≠ "Consult the OS error information.")
    ∧ git_strerror val (val .GIT_EINVALIDPATH) = .table 14
    ∧ error_codes[14]? = some (.GIT_EINVALIDPATH, "The path is invalid")
    ∧ error_codes[20]? = some (.GIT_EINVALIDPATH, "The path is invalid")
    ∧ (StrRef.table 14).text os = (StrRef.table 20).text os := by
  have hhit : ∀ j e, git_strerror val num = .table j → error_codes[j]? = some e →
      num = val e.1 ∧ num ≠ val .GIT_EOSERR := by
    intro j e hj he
    unfold git_strerror at hj
    by_cases hn : num = val .GIT_EOSERR
    · rw [if_pos hn] at hj
      exact absurd hj (by simp)
    · rw [if_neg hn] at hj
      obtain ⟨e2, he2, hnum⟩ := git_strerror_loop_hit val num _ _ _ hj
      rw [he] at he2
      injection he2 with he2
      subst he2
      exact ⟨hnum, hn⟩
  refine ⟨?_, ?_, rfl, ?_, ?_, ?_, rfl, rfl, rfl⟩
  · unfold git_strerror git_strerror_ref
    by_cases hn : num = val .GIT_EOSERR
    · rw [if_pos hn, if_pos hn]
      rfl
    · rw [if_neg hn, if_neg hn]
      exact git_strerror_loop_spec val os num error_codes.length 0 (by simp)
  · intro hn
    unfold git_strerror
    rw [if_pos hn]
  · intro h4
    have := hhit 4 (.GIT_EOSERR, "Consult the OS error information.") h4 rfl
    exact this.2 this.1
  · intro j e hj he htext
    have h1 := hhit j e hj he
    have hmem : e ∈ error_codes := List.getElem?_mem he
    have hcode := consult_text_only_at_eoserr e hmem htext
    rw [hcode] at h1
    exact h1.2 h1.1
  · simp [git_strerror, git_strerror_loop, error_codes, hval.eq_iff]

/-- Witness of `git_strerror_refines`: the sample numbering, at the number of
`GIT_ENOTFOUND`. -/
theorem git_strerror_refines_witness :
    (git_strerror sample_numbering (-3)).text "No such file or directory"
      = git_strerror_ref sample_numbering "No such file or directory" (-3) :=
  (git_strerror_refines sample_numbering sample_numbering_injective
    "No such file or directory" (-3)).1

/-! ## Chained error objects -/

theorem is_chain_frame (h h2 : Heap) :
    ∀ (l : List ErrPtr) (p : ErrPtr), is_chain h p l = true →
      (∀ a, ErrPtr.heap a ∈ l → h2.errs a = h.errs a) → is_chain h2 p l = true := by
  intro l
  induction l with
  | nil => intro p hp _; simpa [is_chain] using hp
  | cons q l ih =>
    intro p hp hagree
    simp only [is_chain, Bool.and_eq_true, decide_eq_true_eq] at hp ⊢
    obtain ⟨hq, hrest⟩ := hp
    subst hq
    refine ⟨rfl, ?_⟩
    have hnext : deref_next h2 q = deref_next h q := by
      cases q with
      | NULL => rfl
      | OOM => rfl
      | heap a => simp only [deref_next]; rw [hagree a (List.mem_cons_self _ _)]
    rw [hnext]
    cases hd : deref_next h q with
    | none => rw [hd] at hrest; exact absurd hrest (by simp)
    | some n =>
      rw [hd] at hrest
      exact ih n hrest (fun a ha => hagree a (List.mem_cons_of_mem _ ha))

/-- Every object of a chain is a live block. -/
theorem is_chain_live (h : Heap) :
    ∀ (l : List ErrPtr) (p : ErrPtr) (x : Nat), is_chain h p l = true →
      ErrPtr.heap x ∈ l → h.errs x ≠ none := by
  intro l
  induction l with
  | nil => intro p x _ hx; simp at hx
  | cons q l ih =>
    intro p x hp hmem
    simp only [is_chain, Bool.and_eq_true, decide_eq_true_eq] at hp
    obtain ⟨hq, hrest⟩ := hp
    subst hq
    cases hd : deref_next h q with
    | none => rw [hd] at hrest; exact absurd hrest (by simp)
    | some n =>
      rw [hd] at hrest
      rcases List.mem_cons.1 hmem with hm | hm
      · subst hm
        intro hnone
        simp [deref_next, hnone] at hd
      · exact ih n x hrest hm

theorem size_of_fitting_length (out : List Byte) (hlen : out.length < 2147483647) :
    size_t_of_int (int_add (p_vsnprintf_ret (some out)) 1) = out.length + 1 := by
  have hret : p_vsnprintf_ret (some out) = (out.length : Int) := by
    unfold p_vsnprintf_ret vsnprintf_ret INT_MAX
    simp only []
    rw [if_pos (by omega)]
  rw [hret]
  unfold size_t_of_int int_add
  omega

theorem p_vsnprintf_complete (msg_junk : Nat → Byte) (out : List Byte)
    (hlen : out.length < 2147483647) :
    p_vsnprintf
        ((List.range (size_t_of_int (int_add (p_vsnprintf_ret (some out)) 1))).map msg_junk)
        (size_t_of_int (int_add (p_vsnprintf_ret (some out)) 1)) (some out)
      = out ++ [0] := by
  rw [size_of_fitting_length out hlen]
  unfold p_vsnprintf vsnprintf
  simp only []
  rw [if_neg (by omega)]
  have h1 : out.length + 1 - 1 = out.length := by omega
  rw [h1, List.take_length]
  rw [List.drop_of_length_le (by simp)]

theorem size_of_failed_format :
    size_t_of_int (int_add (p_vsnprintf_ret none) 1) = 0 := by
  decide

theorem size_of_oversized (out : List Byte) (hlen : 2147483647 < out.length) :
    size_t_of_int (int_add (p_vsnprintf_ret (some out)) 1) = 0 := by
  have hret : p_vsnprintf_ret (some out) = -1 := by
    unfold p_vsnprintf_ret vsnprintf_ret INT_MAX
    simp only []
    rw [if_neg (by omega)]
  rw [hret]
  decide

/-- C2: `git_error_oom` is the address of the one static object; for every
heap, file, line and message (whatever the outcome of its formatting)
`git_error__new` called with that address as `child` returns it and leaves
the heap as it was; when the first allocation fails the result is again that
address, on an unchanged heap; when the second fails the result is that
address too, the block of the first allocation has been released and every
other block is as before; and in no case does `git_error__new` return
`NULL`. -/
theorem git_error__new_oom (h : Heap) (node_alloc msg_alloc : Option Nat)
    (node_junk : git_error) (msg_junk : Nat → Byte) (file : CharPtr) (line_no : Int)
    (child : ErrPtr) (fmt : Option (List Byte)) (a : Nat) :
    git_error_oom = ErrPtr.OOM
    ∧ git_error__new h node_alloc node_junk msg_alloc msg_junk file line_no git_error_oom fmt
        = (h, git_error_oom)
    ∧ git_error__new h none node_junk msg_alloc msg_junk file line_no child fmt
        = (h, git_error_oom)
    ∧ git_error__new h (some a) node_junk none msg_junk file line_no child fmt
        = (if child = git_error_oom then h
            else { errs := Function.update h.errs a none, strs := h.strs }, git_error_oom)
    ∧ (git_error__new h node_alloc node_junk msg_alloc msg_junk file line_no child fmt).2
        ≠ ErrPtr.NULL := by
  refine ⟨rfl, ?_, ?_, ?_, ?_⟩
  · simp [git_error__new, git_error_oom]
  · unfold git_error__new
    by_cases hc : child = .OOM
    · rw [if_pos hc, hc]; rfl
    · rw [if_neg hc]
  · unfold git_error__new
    by_cases hc : child = .OOM
    · rw [if_pos hc, if_pos (show child = git_error_oom from hc), hc]; rfl
    · rw [if_neg hc, if_neg (show ¬ child = git_error_oom from hc)]
      simp [free_err]
  · unfold git_error__new
    by_cases hc : child = .OOM
    · rw [if_pos hc, hc]; simp
    · rw [if_neg hc]
      cases node_alloc with
      | none => simp [git_error_oom]
      | some a => cases msg_alloc <;> simp [git_error_oom]

/-- When `msg_size + 1` comes out as zero, which is the case after a formatter
that fails and after an expansion longer than `INT_MAX`, both calls of
`git__malloc` may succeed and the new object then points to a block of zero
bytes: no byte of the message is stored. -/
theorem git_error__new_zero_block (h : Heap) (a b : Nat) (node_junk : git_error)
    (msg_junk : Nat → Byte) (file : CharPtr) (line_no : Int) (child : ErrPtr)
    (fmt : Option (List Byte)) (hchild : child ≠ git_error_oom)
    (hsize : size_t_of_int (int_add (p_vsnprintf_ret fmt) 1) = 0) :
    git_error__new h (some a) node_junk (some b) msg_junk file line_no child fmt
      = ({ errs := Function.update h.errs a
              (some { next := child, msg := .heap b, filename := file, line_no := line_no }),
           strs := Function.update h.strs b (some []) }, ErrPtr.heap a) := by
  unfold git_error__new
  rw [if_neg (show ¬ child = ErrPtr.OOM from hchild)]
  simp only [hsize, Function.update_idem, List.range_zero, List.map_nil]
  have hw : p_vsnprintf [] 0 fmt = [] := by
    cases fmt with
    | none => rfl
    | some out => simp [p_vsnprintf, vsnprintf]
  rw [hw]

/-- The same holds after a formatter that fails. -/
theorem git_error__new_failed_format :
    (git_error__new Heap.empty (some 0) git_error_OOM (some 0) (fun _ => 0)
        (.literal "odb.c") 120 .NULL none).1.strs 0 = some [] := by
  rw [git_error__new_zero_block _ _ _ _ _ _ _ _ _ (by decide) size_of_failed_format]
  simp

/-- C10, as stated, fails: for a message whose expansion has `2^31` bytes
`p_vsnprintf` returns `-1`, `msg_size + 1` is zero, and although `child` is
`NULL` and both allocations succeed the `msg` of the returned object is a
block of zero bytes, not the complete message and its NUL. -/
theorem git_error__new_oversized_message :
    oversized_message.length = 2147483648
    ∧ p_vsnprintf_ret (some oversized_message) = -1
    ∧ (git_error__new Heap.empty (some 0) git_error_OOM (some 0) (fun _ => 0)
        (.literal "odb.c") 120 .NULL (some oversized_message)).2 = ErrPtr.heap 0
    ∧ (git_error__new Heap.empty (some 0) git_error_OOM (some 0) (fun _ => 0)
        (.literal "odb.c") 120 .NULL (some oversized_message)).1.errs 0
        = some { next := .NULL, msg := .heap 0, filename := .literal "odb.c", line_no := 120 }
    ∧ (git_error__new Heap.empty (some 0) git_error_OOM (some 0) (fun _ => 0)
        (.literal "odb.c") 120 .NULL (some oversized_message)).1.strs 0 = some []
    ∧ (git_error__new Heap.empty (some 0) git_error_OOM (some 0) (fun _ => 0)
        (.literal "odb.c") 120 .NULL (some oversized_message)).1.strs 0
        ≠ some (oversized_message ++ [0]) := by
  have hlen : oversized_message.length = 2147483648 := by
    unfold oversized_message
    exact List.length_replicate _ _
  have hret : p_vsnprintf_ret (some oversized_message) = -1 := by
    unfold p_vsnprintf_ret vsnprintf_ret INT_MAX
    simp only []
    rw [hlen]
    rfl
  have hsize := size_of_oversized oversized_message (by rw [hlen]; decide)
  rw [git_error__new_zero_block _ _ _ _ _ _ _ _ _ (by decide) hsize]
  refine ⟨hlen, hret, rfl, ?_, ?_, ?_⟩
  · simp
  · simp
  · simp only [Function.update_same]
    intro hnil
    injection hnil with hnil
    exact List.append_ne_nil_of_right_ne_nil _ (List.cons_ne_nil 0 []) hnil.symm

/-- C10, amended: when `child` is not the out-of-memory object, both
allocations succeed, the first at an address `a` that held no live block, and
the message formats to fewer than `INT_MAX` bytes, `git_error__new` returns
the block at `a`; its `msg` is the block at `b`, which holds the complete
expansion of the message and its NUL; its `filename`, `line_no` and `next`
are the given file, line and `child`; every other block of the heap is as
before; so every chain `l` that started at `child` does not contain the new
object and still starts at `child`, and the chain from the returned object is
that object followed by `l`, one longer. -/
theorem git_error__new_links (h : Heap) (a b : Nat) (node_junk : git_error)
    (msg_junk : Nat → Byte) (file : CharPtr) (line_no : Int) (child : ErrPtr)
    (out : List Byte) (hchild : child ≠ git_error_oom) (ha : h.errs a = none)
    (hlen : (out.length : Int) < INT_MAX) :
    (git_error__new h (some a) node_junk (some b) msg_junk file line_no child (some out)).2
        = ErrPtr.heap a
    ∧ (git_error__new h (some a) node_junk (some b) msg_junk file line_no child
          (some out)).1.errs a
        = some { next := child, msg := .heap b, filename := file, line_no := line_no }
    ∧ (git_error__new h (some a) node_junk (some b) msg_junk file line_no child
          (some out)).1.strs b
        = some (out ++ [0])
    ∧ (∀ x, x ≠ a →
        (git_error__new h (some a) node_junk (some b) msg_junk file line_no child
            (some out)).1.errs x
          = h.errs x)
    ∧ (∀ y, y ≠ b →
        (git_error__new h (some a) node_junk (some b) msg_junk file line_no child
            (some out)).1.strs y
          = h.strs y)
    ∧ (∀ l, is_chain h child l = true →
        ErrPtr.heap a ∉ l
        ∧ is_chain
            (git_error__new h (some a) node_junk (some b) msg_junk file line_no child
              (some out)).1
            child l = true
        ∧ is_chain
            (git_error__new h (some a) node_junk (some b) msg_junk file line_no child
              (some out)).1
            (git_error__new h (some a) node_junk (some b) msg_junk file line_no child
              (some out)).2
            (ErrPtr.heap a :: l) = true
        ∧ (ErrPtr.heap a :: l).length = l.length + 1) := by
  have hlen2 : out.length < 2147483647 := by
    unfold INT_MAX at hlen
    omega
  have hres : git_error__new h (some a) node_junk (some b) msg_junk file line_no child
        (some out)
      = ({ errs := Function.update h.errs a
              (some { next := child, msg := .heap b, filename := file, line_no := line_no }),
           strs := Function.update h.strs b (some (out ++ [0])) }, ErrPtr.heap a) := by
    unfold git_error__new
    rw [if_neg (show ¬ child = ErrPtr.OOM from hchild)]
    simp only [p_vsnprintf_complete msg_junk out hlen2, Function.update_idem]
  rw [hres]
  refine ⟨rfl, ?_, ?_, ?_, ?_, ?_⟩
  · simp
  · simp
  · intro x hx; simp [Function.update, hx]
  · intro y hy; simp [Function.update, hy]
  · intro l hl
    have hfresh : ErrPtr.heap a ∉ l := fun hmem => is_chain_live h l child a hl hmem ha
    have hframe : is_chain
        { errs := Function.update h.errs a
              (some { next := child, msg := .heap b, filename := file, line_no := line_no }),
          strs := Function.update h.strs b (some (out ++ [0])) } child l = true := by
      apply is_chain_frame h _ l child hl
      intro x hx
      have hxa : x ≠ a := fun hxa => hfresh (hxa ▸ hx)
      simp [Function.update, hxa]
    refine ⟨hfresh, hframe, ?_, rfl⟩
    simp only [is_chain, deref_next, Function.update_same, Option.map_some', decide_True,
      Bool.true_and]
    exact hframe

/-- Witness of `git_error__new_links`: wrapping the inner error of
`sample_chain_heap` (address 0, built on the empty heap) in a new error at
address 1, whose message "outer" has five bytes. -/
theorem git_error__new_links_witness :
    (git_error__new
        (git_error__new Heap.empty (some 0) git_error_OOM (some 0) (fun _ => 0)
          (.literal "odb.c") 120 .NULL (some (bytes "inner"))).1
        (some 1) git_error_OOM (some 1) (fun _ => 0)
        (.literal "repository.c") 45 (.heap 0) (some (bytes "outer"))).1.strs 1
      = some (bytes "outer" ++ [0]) :=
  (git_error__new_links
    (git_error__new Heap.empty (some 0) git_error_OOM (some 0) (fun _ => 0)
      (.literal "odb.c") 120 .NULL (some (bytes "inner"))).1
    1 1 git_error_OOM (fun _ => 0) (.literal "repository.c") 45 (.heap 0) (bytes "outer")
    (by decide) (by decide) (by decide)).2.2.1

theorem is_chain_cons_iff (h : Heap) (p q : ErrPtr) (l : List ErrPtr) :
    is_chain h p (q :: l) = true ↔
      q = p ∧ ∃ n, deref_next h p = some n ∧ is_chain h n l = true := by
  simp only [is_chain, Bool.and_eq_true, decide_eq_true_eq]
  constructor
  · rintro ⟨hq, hrest⟩
    refine ⟨hq, ?_⟩
    cases hd : deref_next h p with
    | none => rw [hd] at hrest; exact absurd hrest (by simp)
    | some n => rw [hd] at hrest; exact ⟨n, rfl, hrest⟩
  · rintro ⟨hq, n, hn, hrest⟩
    rw [hn]
    exact ⟨hq, hrest⟩

theorem is_chain_nil_iff (h : Heap) (p : ErrPtr) : is_chain h p [] = true ↔ p = .NULL := by
  simp [is_chain]

theorem is_chain_det (h : Heap) :
    ∀ (l1 l2 : List ErrPtr) (p : ErrPtr),
      is_chain h p l1 = true → is_chain h p l2 = true → l1 = l2 := by
  intro l1
  induction l1 with
  | nil =>
    intro l2 p h1 h2
    rw [is_chain_nil_iff] at h1
    subst h1
    cases l2 with
    | nil => rfl
    | cons q t =>
      rw [is_chain_cons_iff] at h2
      obtain ⟨_, n, hn, _⟩ := h2
      simp [deref_next] at hn
  | cons q1 t1 ih =>
    intro l2 p h1 h2
    rw [is_chain_cons_iff] at h1
    obtain ⟨hq1, n1, hn1, hr1⟩ := h1
    cases l2 with
    | nil =>
      rw [is_chain_nil_iff] at h2
      subst h2
      simp [deref_next] at hn1
    | cons q2 t2 =>
      rw [is_chain_cons_iff] at h2
      obtain ⟨hq2, n2, hn2, hr2⟩ := h2
      rw [hn1] at hn2
      injection hn2 with hn2
      subst hn2
      rw [hq1, hq2, ih t2 n1 hr1 hr2]

theorem is_chain_mem (h : Heap) :
    ∀ (l : List ErrPtr) (p q : ErrPtr), is_chain h p l = true → q ∈ l →
      ∃ l2, is_chain h q l2 = true ∧ l2.length ≤ l.length := by
  intro l
  induction l with
  | nil => intro p q _ hq; simp at hq
  | cons r t ih =>
    intro p q hp hq
    have hp2 := hp
    rw [is_chain_cons_iff] at hp2
    obtain ⟨hr, n, hn, hrest⟩ := hp2
    rcases List.mem_cons.1 hq with hq | hq
    · subst hq
      subst hr
      exact ⟨q :: t, hp, le_refl _⟩
    · obtain ⟨l2, hl2, hlen⟩ := ih n q hrest hq
      exact ⟨l2, hl2, by simp only [List.length_cons]; omega⟩

/-- A finite chain never visits an object twice. -/
theorem is_chain_head_not_mem (h : Heap) (p q : ErrPtr) (l : List ErrPtr)
    (hp : is_chain h p (q :: l) = true) : q ∉ l := by
  intro hq
  have hp2 := hp
  rw [is_chain_cons_iff] at hp2
  obtain ⟨hqp, n, hn, hrest⟩ := hp2
  subst hqp
  obtain ⟨l2, hl2, hlen⟩ := is_chain_mem h l n q hrest hq
  have := is_chain_det h l2 (q :: l) q hl2 hp
  rw [this] at hlen
  simp only [List.length_cons] at hlen
  omega

theorem free_calls_congr (h h2 : Heap) :
    ∀ l : List ErrPtr, (∀ q ∈ l, deref_msg h2 q = deref_msg h q) →
      free_calls h2 l = free_calls h l := by
  intro l
  induction l with
  | nil => intro _; rfl
  | cons q l ih =>
    intro hagree
    simp only [free_calls]
    rw [hagree q (List.mem_cons_self _ _),
      ih (fun r hr => hagree r (List.mem_cons_of_mem _ hr))]

theorem free_calls_err_mem (h : Heap) (q : ErrPtr) :
    ∀ l : List ErrPtr, FreeCall.err q ∈ free_calls h l → q ∈ l := by
  intro l
  induction l with
  | nil => intro hq; simp [free_calls] at hq
  | cons r l ih =>
    intro hq
    simp only [free_calls] at hq
    cases hm : deref_msg h r with
    | none =>
      rw [hm] at hq
      exact List.mem_cons_of_mem _ (ih hq)
    | some m =>
      rw [hm] at hq
      simp only [List.mem_cons, FreeCall.err.injEq] at hq
      rcases hq with hq | hq | hq
      · exact absurd hq (by simp)
      · rw [hq]; exact List.mem_cons_self _ _
      · exact List.mem_cons_of_mem _ (ih hq)

theorem git_error_free_chain :
    ∀ (l : List ErrPtr) (h : Heap) (p : ErrPtr) (fuel : Nat),
      is_chain h p l = true → l.length ≤ fuel →
      ∃ h2, git_error_free fuel h p
          = some (h2, free_calls h (l.takeWhile (fun q => decide (q ≠ ErrPtr.OOM))))
        ∧ (∀ x, h2.errs x = if ErrPtr.heap x ∈ l then none else h.errs x)
        ∧ (∀ y, h2.strs y
            = if some (CharPtr.heap y) ∈ l.map (deref_msg h) then none else h.strs y) := by
  intro l
  induction l with
  | nil =>
    intro h p fuel hp _
    rw [is_chain_nil_iff] at hp
    subst hp
    refine ⟨h, ?_, ?_, ?_⟩
    · cases fuel <;> rfl
    · intro x; simp
    · intro y; simp
  | cons q l ih =>
    intro h p fuel hp hfuel
    have hnodup := is_chain_head_not_mem h p q l hp
    have hp2 := hp
    rw [is_chain_cons_iff] at hp2
    obtain ⟨hq, n, hn, hrest⟩ := hp2
    subst hq
    cases q with
    | NULL => simp [deref_next] at hn
    | OOM =>
      simp only [deref_next, git_error_OOM, Option.some.injEq] at hn
      subst hn
      have hl : l = [] := is_chain_det h l [] .NULL hrest (by simp [is_chain])
      subst hl
      refine ⟨h, ?_, ?_, ?_⟩
      · cases fuel <;> simp [git_error_free, free_calls, List.takeWhile]
      · intro x; simp
      · intro y; simp [deref_msg, git_error_OOM]
    | heap a =>
      cases he : h.errs a with
      | none => simp [deref_next, he] at hn
      | some e =>
        simp only [deref_next, he, Option.map_some', Option.some.injEq] at hn
        subst hn
        cases fuel with
        | zero => simp at hfuel
        | succ fuel =>
          simp only [List.length_cons, Nat.add_le_add_iff_right] at hfuel
          have herrs : ∀ x, (free_err (free_msg h e.msg) (.heap a)).errs x
              = if x = a then none else h.errs x := by
            intro x
            cases hm : e.msg <;> simp [free_err, free_msg, Function.update]
          have hagree : ∀ x, ErrPtr.heap x ∈ l →
              (free_err (free_msg h e.msg) (.heap a)).errs x = h.errs x := by
            intro x hx
            rw [herrs x]
            have hxa : x ≠ a := fun hxa => hnodup (hxa ▸ hx)
            rw [if_neg hxa]
          have hmsgs : ∀ r ∈ l,
              deref_msg (free_err (free_msg h e.msg) (.heap a)) r = deref_msg h r := by
            intro r hr
            cases r with
            | NULL => rfl
            | OOM => rfl
            | heap x => simp only [deref_msg]; rw [hagree x hr]
          obtain ⟨h3, hrun, herr3, hstr3⟩ :=
            ih (free_err (free_msg h e.msg) (.heap a)) e.next fuel
              (is_chain_frame h _ l e.next hrest hagree) hfuel
          refine ⟨h3, ?_, ?_, ?_⟩
          · simp only [git_error_free, he, hrun]
            have htw : List.takeWhile (fun q => decide (q ≠ ErrPtr.OOM)) (ErrPtr.heap a :: l)
                = ErrPtr.heap a :: List.takeWhile (fun q => decide (q ≠ ErrPtr.OOM)) l := by
              simp [List.takeWhile]
            rw [htw]
            simp only [free_calls, deref_msg, he, Option.map_some']
            rw [free_calls_congr h _ _
              (fun r hr => hmsgs r ((List.takeWhile_sublist _).subset hr))]
          · intro x
            rw [herr3 x, herrs x]
            by_cases hxa : x = a
            · subst hxa; simp
            · simp [hxa]
          · intro y
            rw [hstr3 y]
            have hmap : l.map (deref_msg (free_err (free_msg h e.msg) (.heap a)))
                = l.map (deref_msg h) := List.map_congr_left hmsgs
            rw [hmap]
            simp only [List.map_cons, List.mem_cons, deref_msg, he, Option.map_some',
              Option.some.injEq]
            by_cases hmy : CharPtr.heap y = e.msg
            · have hs : (free_err (free_msg h e.msg) (.heap a)).strs y = none := by
                rw [← hmy]; simp [free_err, free_msg]
              rw [hs]
              simp [hmy]
            · have hs : (free_err (free_msg h e.msg) (.heap a)).strs y = h.strs y := by
                cases hm : e.msg with
                | NULL => simp [free_err, free_msg]
                | literal t => simp [free_err, free_msg]
                | heap b =>
                  rw [hm] at hmy
                  have hyb : y ≠ b := fun hyb => hmy (by rw [hyb])
                  simp [free_err, free_msg, Function.update, hyb]
              rw [hs]
              simp [hmy]

/-- On a chain that ends in the out-of-memory object the loop frees the
objects in front of it and stops there. -/
theorem git_error_free_stops_at_oom :
    is_chain sample_oom_tail_heap (.heap 0) [.heap 0, .OOM] = true
    ∧ (git_error_free 1 sample_oom_tail_heap (.heap 0)).map Prod.snd
        = some [.msg (.heap 0), .err (.heap 0)] := by
  decide

/-- C3: for every finite chain `l` that starts at `error`, `git_error_free`
run with at least `l.length` iterations of fuel returns; the calls to `free`
it makes are, for each object of `l` before the first out-of-memory object
(all of `l` when there is none), its message and then the object, in chain
order; the out-of-memory object is never passed to `free`; afterwards exactly
the blocks of the objects of `l` and of their messages are released and every
other block is as before; on `NULL` and on the out-of-memory object it
returns at once, with no call to `free` and the heap unchanged. -/
theorem git_error_free_spares_oom (h : Heap) (error : ErrPtr) (l : List ErrPtr)
    (fuel : Nat) (hl : is_chain h error l = true) (hfuel : l.length ≤ fuel) :
    (∃ h2, git_error_free fuel h error
        = some (h2, free_calls h (l.takeWhile (fun q => decide (q ≠ ErrPtr.OOM))))
      ∧ (∀ x, h2.errs x = if ErrPtr.heap x ∈ l then none else h.errs x)
      ∧ (∀ y, h2.strs y
          = if some (CharPtr.heap y) ∈ l.map (deref_msg h) then none else h.strs y))
    ∧ FreeCall.err ErrPtr.OOM
        ∉ free_calls h (l.takeWhile (fun q => decide (q ≠ ErrPtr.OOM)))
    ∧ git_error_free fuel h .NULL = some (h, [])
    ∧ git_error_free fuel h git_error_oom = some (h, []) := by
  refine ⟨git_error_free_chain l h error fuel hl hfuel, ?_, ?_, ?_⟩
  · intro hmem
    have := List.mem_takeWhile_imp (free_calls_err_mem h _ _ hmem)
    simp at this
  · cases fuel <;> rfl
  · cases fuel <;> rfl

/-- Witness of `git_error_free_spares_oom`: the chain of two errors of
`sample_chain_heap`, freed from its head. -/
theorem git_error_free_spares_oom_witness :
    is_chain sample_chain_heap (.heap 1) [.heap 1, .heap 0] = true
    ∧ free_calls sample_chain_heap [.heap 1, .heap 0]
        = [.msg (.heap 1), .err (.heap 1), .msg (.heap 0), .err (.heap 0)]
    ∧ ∃ h2, git_error_free 2 sample_chain_heap (.heap 1)
        = some (h2, free_calls sample_chain_heap
            ([ErrPtr.heap 1, ErrPtr.heap 0].takeWhile (fun q => decide (q ≠ ErrPtr.OOM))))
      ∧ (∀ x, h2.errs x
          = if ErrPtr.heap x ∈ [ErrPtr.heap 1, ErrPtr.heap 0] then none
            else sample_chain_heap.errs x)
      ∧ (∀ y, h2.strs y
          = if some (CharPtr.heap y)
                ∈ [ErrPtr.heap 1, ErrPtr.heap 0].map (deref_msg sample_chain_heap)
            then none else sample_chain_heap.strs y) :=
  ⟨by decide, by decide,
    (git_error_free_spares_oom sample_chain_heap (.heap 1) [.heap 1, .heap 0] 2
      (by decide) (by decide)).1⟩

/-! ## Path ordering -/

theorem path_lt_irrefl : ∀ a : Path, path_lt a a = false := by
  intro a
  induction a with
  | nil => rfl
  | cons x a ih => simp [path_lt, ih]

theorem path_lt_trans : ∀ a b c : Path,
    path_lt a b = true → path_lt b c = true → path_lt a c = true := by
  intro a
  induction a with
  | nil =>
    intro b c hab hbc
    cases b with
    | nil => simp [path_lt] at hab
    | cons y b =>
      cases c with
      | nil => simp [path_lt] at hbc
      | cons z c => rfl
  | cons x a ih =>
    intro b c hab hbc
    cases b with
    | nil => simp [path_lt] at hab
    | cons y b =>
      cases c with
      | nil => simp [path_lt] at hbc
      | cons z c =>
        simp only [path_lt] at hab hbc ⊢
        by_cases hxy : x < y
        · by_cases hyz : y < z
          · rw [if_pos (lt_trans hxy hyz)]
          · rw [if_neg hyz] at hbc
            by_cases hzy : z < y
            · rw [if_pos hzy] at hbc; exact absurd hbc (by simp)
            · have hyz2 : y = z := Nat.le_antisymm (Nat.le_of_not_lt hzy) (Nat.le_of_not_lt hyz)
              subst hyz2
              rw [if_pos hxy]
        · rw [if_neg hxy] at hab
          by_cases hyx : y < x
          · rw [if_pos hyx] at hab; exact absurd hab (by simp)
          · rw [if_neg hyx] at hab
            have hxy2 : x = y := Nat.le_antisymm (Nat.le_of_not_lt hyx) (Nat.le_of_not_lt hxy)
            subst hxy2
            by_cases hxz : x < z
            · rw [if_pos hxz]
            · rw [if_neg hxz] at hbc ⊢
              by_cases hzx : z < x
              · rw [if_pos hzx] at hbc; exact absurd hbc (by simp)
              · rw [if_neg hzx] at hbc ⊢
                exact ih b c hab hbc

theorem path_lt_total : ∀ a b : Path,
    path_lt a b = false → path_lt b a = false → a = b := by
  intro a
  induction a with
  | nil =>
    intro b hab _
    cases b with
    | nil => rfl
    | cons y b => simp [path_lt] at hab
  | cons x a ih =>
    intro b hab hba
    cases b with
    | nil => simp [path_lt] at hba
    | cons y b =>
      simp only [path_lt] at hab hba
      by_cases hxy : x < y
      · rw [if_pos hxy] at hab; exact absurd hab (by simp)
      · rw [if_neg hxy] at hab
        by_cases hyx : y < x
        · rw [if_pos hyx] at hba; exact absurd hba (by simp)
        · rw [if_neg hyx] at hab hba
          rw [if_neg hxy] at hba
          have hxy2 : x = y := Nat.le_antisymm (Nat.le_of_not_lt hyx) (Nat.le_of_not_lt hxy)
          subst hxy2
          rw [ih b hab hba]

theorem path_lt_asymm (a b : Path) (h : path_lt a b = true) : path_lt b a = false := by
  cases hba : path_lt b a with
  | false => rfl
  | true =>
    have := path_lt_trans a b a h hba
    rw [path_lt_irrefl] at this
    exact absurd this (by simp)

/-- The comparator puts a path before every longer path that extends it. -/
theorem path_lt_prefix (a b : Path) (hb : b ≠ []) : path_lt a (a ++ b) = true := by
  induction a with
  | nil =>
    cases b with
    | nil => exact absurd rfl hb
    | cons y b => rfl
  | cons x a ih => simp [path_lt, ih]

/-- Order is kept from below: `k ≤ y` and `y ≤ x` exclude `x < k`. -/
theorem path_le_trans (k y x : Path) (hyk : path_lt y k = false) (hxy : path_lt x y = false) :
    path_lt x k = false := by
  cases hxk : path_lt x k with
  | false => rfl
  | true =>
    cases hyx : path_lt y x with
    | true =>
      have := path_lt_trans y x k hyx hxk
      rw [hyk] at this
      exact absurd this (by simp)
    | false =>
      have hxy2 : x = y := path_lt_total x y hxy hyx
      subst hxy2
      rw [hyk] at hxk
      exact absurd hxk (by simp)

theorem is_ascending_iff_chain (l : List Path) :
    is_ascending l = true ↔ List.Chain' (fun a b => path_lt a b = true) l := by
  induction l with
  | nil => simp [is_ascending]
  | cons a l ih =>
    cases l with
    | nil => simp [is_ascending]
    | cons b l =>
      simp only [is_ascending, Bool.and_eq_true, List.chain'_cons]
      rw [ih]

/-- Strictly ascending is the same as: every path sorts before every later
one. -/
theorem strictly_ascending_iff (l : List Path) :
    strictly_ascending l ↔ l.Pairwise (fun a b => path_lt a b = true) := by
  unfold strictly_ascending
  rw [is_ascending_iff_chain]
  exact @List.chain'_iff_pairwise Path (fun a b => path_lt a b = true) ⟨path_lt_trans⟩ l

theorem pairwise_path_lt_nodup (l : List Path)
    (h : l.Pairwise (fun a b => path_lt a b = true)) : l.Nodup := by
  refine h.imp ?_
  intro a b hab heq
  subst heq
  rw [path_lt_irrefl] at hab
  exact absurd hab (by simp)

/-! ## The three-way merge -/

theorem opt_min_spec (a b : Option Path) (k : Path) (h : opt_min a b = some k) :
    (a = some k ∨ b = some k)
    ∧ (∀ x, a = some x → path_lt x k = false)
    ∧ (∀ x, b = some x → path_lt x k = false) := by
  cases a with
  | none =>
    cases b with
    | none => simp [opt_min] at h
    | some y =>
      simp only [opt_min, Option.some.injEq] at h
      subst h
      refine ⟨Or.inr rfl, by simp, ?_⟩
      intro x hx
      injection hx with hx
      subst hx
      exact path_lt_irrefl _
  | some x =>
    cases b with
    | none =>
      simp only [opt_min, Option.some.injEq] at h
      subst h
      refine ⟨Or.inl rfl, ?_, by simp⟩
      intro y hy
      injection hy with hy
      subst hy
      exact path_lt_irrefl _
    | some y =>
      simp only [opt_min] at h
      by_cases hyx : path_lt y x = true
      · rw [if_pos hyx] at h
        injection h with h
        subst h
        refine ⟨Or.inr rfl, ?_, ?_⟩
        · intro z hz
          injection hz with hz
          subst hz
          exact path_lt_asymm _ _ hyx
        · intro z hz
          injection hz with hz
          subst hz
          exact path_lt_irrefl _
      · rw [if_neg hyx] at h
        injection h with h
        subst h
        refine ⟨Or.inl rfl, ?_, ?_⟩
        · intro z hz
          injection hz with hz
          subst hz
          exact path_lt_irrefl _
        · intro z hz
          injection hz with hz
          subst hz
          simpa using hyx

theorem min_key_spec (T : List TreeEntry) (I : List IndexEntry) (W : List WorkEntry)
    (k : Path) (h : min_key T I W = some k) :
    (head_key TreeEntry.path T = some k ∨ head_key IndexEntry.path I = some k
      ∨ head_key WorkEntry.path W = some k)
    ∧ (∀ x, head_key TreeEntry.path T = some x → path_lt x k = false)
    ∧ (∀ x, head_key IndexEntry.path I = some x → path_lt x k = false)
    ∧ (∀ x, head_key WorkEntry.path W = some x → path_lt x k = false) := by
  unfold min_key at h
  obtain ⟨hor, hin, hw⟩ := opt_min_spec _ _ k h
  cases hm : opt_min (head_key TreeEntry.path T) (head_key IndexEntry.path I) with
  | none =>
    rw [hm] at hor
    have hwk : head_key WorkEntry.path W = some k := by
      rcases hor with hor | hor
      · exact absurd hor (by simp)
      · exact hor
    have hT : head_key TreeEntry.path T = none := by
      cases hT : head_key TreeEntry.path T with
      | none => rfl
      | some x =>
        rw [hT] at hm
        cases hI : head_key IndexEntry.path I with
        | none => rw [hI] at hm; simp [opt_min] at hm
        | some y =>
          rw [hI] at hm
          simp only [opt_min] at hm
          split at hm <;> simp at hm
    have hI : head_key IndexEntry.path I = none := by
      rw [hT] at hm
      cases hI : head_key IndexEntry.path I with
      | none => rfl
      | some y => rw [hI] at hm; simp [opt_min] at hm
    refine ⟨Or.inr (Or.inr hwk), ?_, ?_, hw⟩
    · intro x hx; rw [hT] at hx; exact absurd hx (by simp)
    · intro x hx; rw [hI] at hx; exact absurd hx (by simp)
  | some m =>
    obtain ⟨hor2, hT2, hI2⟩ := opt_min_spec _ _ m hm
    have hmk : path_lt m k = false := hin m hm
    refine ⟨?_, ?_, ?_, hw⟩
    · rcases hor with hor | hor
      · rw [hm] at hor
        injection hor with hor
        subst hor
        rcases hor2 with h2 | h2
        · exact Or.inl h2
        · exact Or.inr (Or.inl h2)
      · exact Or.inr (Or.inr hor)
    · intro x hx
      exact path_le_trans k m x hmk (hT2 x hx)
    · intro x hx
      exact path_le_trans k m x hmk (hI2 x hx)

theorem gather_spec {α : Type} (key : α → Path) (k : Path) (L : List α)
    (hs : L.Pairwise (fun a b => path_lt (key a) (key b) = true))
    (hk : ∀ x, head_key key L = some x → path_lt x k = false) :
    (gather key k L).2.Pairwise (fun a b => path_lt (key a) (key b) = true)
    ∧ (∀ e ∈ (gather key k L).2, path_lt k (key e) = true)
    ∧ (∀ e ∈ (gather key k L).2, e ∈ L)
    ∧ (gather key k L).2.length ≤ L.length
    ∧ (head_key key L = some k → (gather key k L).2.length < L.length)
    ∧ (∀ e ∈ L, key e = k ∨ e ∈ (gather key k L).2) := by
  cases L with
  | nil => simp [gather, head_key]
  | cons e rest =>
    have hs2 := List.pairwise_cons.1 hs
    by_cases hek : key e = k
    · simp only [gather, if_pos hek]
      refine ⟨hs2.2, ?_, ?_, ?_, ?_, ?_⟩
      · intro x hx
        rw [← hek]
        exact hs2.1 x hx
      · intro x hx; exact List.mem_cons_of_mem _ hx
      · simp
      · intro _; simp
      · intro x hx
        rcases List.mem_cons.1 hx with hx | hx
        · left; rw [hx]; exact hek
        · right; exact hx
    · simp only [gather, if_neg hek]
      have hke : path_lt k (key e) = true := by
        cases hke : path_lt k (key e) with
        | true => rfl
        | false =>
          exact absurd (path_lt_total _ _ (hk (key e) rfl) hke) hek
      refine ⟨hs, ?_, ?_, le_refl _, ?_, ?_⟩
      · intro x hx
        rcases List.mem_cons.1 hx with hx | hx
        · rw [hx]; exact hke
        · exact path_lt_trans _ _ _ hke (hs2.1 x hx)
      · intro x hx; exact hx
      · intro h
        simp only [head_key, Option.some.injEq] at h
        exact absurd h hek
      · intro x hx; right; exact hx

theorem head_key_mem {α : Type} (key : α → Path) (L : List α) (k : Path)
    (h : head_key key L = some k) : ∃ e ∈ L, key e = k := by
  cases L with
  | nil => simp [head_key] at h
  | cons e rest =>
    simp only [head_key, Option.some.injEq] at h
    exact ⟨e, List.mem_cons_self _ _, h⟩

/-- The rows of the merge come in strictly ascending path order, and above
every path that all three listings are above. -/
theorem merge_rows_sorted :
    ∀ (fuel : Nat) (T : List TreeEntry) (I : List IndexEntry) (W : List WorkEntry),
      T.Pairwise (fun a b => path_lt a.path b.path = true) →
      I.Pairwise (fun a b => path_lt a.path b.path = true) →
      W.Pairwise (fun a b => path_lt a.path b.path = true) →
      ((merge_rows fuel T I W).map Row.path).Pairwise (fun a b => path_lt a b = true)
      ∧ ∀ k0, (∀ e ∈ T, path_lt k0 e.path = true) → (∀ e ∈ I, path_lt k0 e.path = true) →
          (∀ e ∈ W, path_lt k0 e.path = true) →
          ∀ r ∈ merge_rows fuel T I W, path_lt k0 r.path = true := by
  intro fuel
  induction fuel with
  | zero => intro T I W _ _ _; simp [merge_rows]
  | succ fuel ih =>
    intro T I W hT hI hW
    unfold merge_rows
    cases hk : min_key T I W with
    | none => simp
    | some k =>
      obtain ⟨hhead, hkT, hkI, hkW⟩ := min_key_spec T I W k hk
      obtain ⟨hT1, hT2, hT3, -, -, -⟩ := gather_spec TreeEntry.path k T hT hkT
      obtain ⟨hI1, hI2, hI3, -, -, -⟩ := gather_spec IndexEntry.path k I hI hkI
      obtain ⟨hW1, hW2, hW3, -, -, -⟩ := gather_spec WorkEntry.path k W hW hkW
      obtain ⟨ihs, iha⟩ := ih _ _ _ hT1 hI1 hW1
      simp only [List.map_cons, List.pairwise_cons, List.mem_map, forall_exists_index,
        and_imp, forall_apply_eq_imp_iff₂, List.mem_cons, forall_eq_or_imp]
      refine ⟨⟨fun r hr => iha k hT2 hI2 hW2 r hr, ihs⟩, ?_⟩
      intro k0 h0T h0I h0W
      refine ⟨?_, ?_⟩
      · rcases hhead with hh | hh | hh
        · obtain ⟨e, he, hek⟩ := head_key_mem _ _ _ hh
          rw [← hek]; exact h0T e he
        · obtain ⟨e, he, hek⟩ := head_key_mem _ _ _ hh
          rw [← hek]; exact h0I e he
        · obtain ⟨e, he, hek⟩ := head_key_mem _ _ _ hh
          rw [← hek]; exact h0W e he
      · intro r hr
        exact iha k0 (fun e he => h0T e (hT3 e he)) (fun e he => h0I e (hI3 e he))
          (fun e he => h0W e (hW3 e he)) r hr

theorem opt_min_eq_none (a b : Option Path) (h : opt_min a b = none) :
    a = none ∧ b = none := by
  cases a with
  | none =>
    cases b with
    | none => exact ⟨rfl, rfl⟩
    | some y => simp [opt_min] at h
  | some x =>
    cases b with
    | none => simp [opt_min] at h
    | some y =>
      simp only [opt_min] at h
      by_cases hc : path_lt y x = true
      · rw [if_pos hc] at h; exact absurd h (by simp)
      · rw [if_neg hc] at h; exact absurd h (by simp)

theorem head_key_eq_none {α : Type} (key : α → Path) (L : List α)
    (h : head_key key L = none) : L = [] := by
  cases L with
  | nil => rfl
  | cons e rest => simp [head_key] at h

theorem min_key_none (T : List TreeEntry) (I : List IndexEntry) (W : List WorkEntry)
    (h : min_key T I W = none) : T = [] ∧ I = [] ∧ W = [] := by
  unfold min_key at h
  obtain ⟨h1, h2⟩ := opt_min_eq_none _ _ h
  obtain ⟨h3, h4⟩ := opt_min_eq_none _ _ h1
  exact ⟨head_key_eq_none _ _ h3, head_key_eq_none _ _ h4, head_key_eq_none _ _ h2⟩

/-- With one step of fuel per entry the merge exhausts the three listings:
the path of every entry of every listing is the path of a row. -/
theorem merge_rows_complete :
    ∀ (fuel : Nat) (T : List TreeEntry) (I : List IndexEntry) (W : List WorkEntry),
      T.Pairwise (fun a b => path_lt a.path b.path = true) →
      I.Pairwise (fun a b => path_lt a.path b.path = true) →
      W.Pairwise (fun a b => path_lt a.path b.path = true) →
      T.length + I.length + W.length ≤ fuel →
      (∀ e ∈ T, e.path ∈ (merge_rows fuel T I W).map Row.path)
      ∧ (∀ e ∈ I, e.path ∈ (merge_rows fuel T I W).map Row.path)
      ∧ (∀ e ∈ W, e.path ∈ (merge_rows fuel T I W).map Row.path) := by
  intro fuel
  induction fuel with
  | zero =>
    intro T I W _ _ _ hlen
    have hT : T = [] := List.length_eq_zero.1 (by omega)
    have hI : I = [] := List.length_eq_zero.1 (by omega)
    have hW : W = [] := List.length_eq_zero.1 (by omega)
    subst hT hI hW
    simp
  | succ fuel ih =>
    intro T I W hT hI hW hlen
    unfold merge_rows
    cases hk : min_key T I W with
    | none =>
      obtain ⟨h1, h2, h3⟩ := min_key_none T I W hk
      subst h1 h2 h3
      simp
    | some k =>
      obtain ⟨hhead, hkT, hkI, hkW⟩ := min_key_spec T I W k hk
      obtain ⟨hT1, -, -, hT4, hT5, hT6⟩ := gather_spec TreeEntry.path k T hT hkT
      obtain ⟨hI1, -, -, hI4, hI5, hI6⟩ := gather_spec IndexEntry.path k I hI hkI
      obtain ⟨hW1, -, -, hW4, hW5, hW6⟩ := gather_spec WorkEntry.path k W hW hkW
      have hlen2 : (gather TreeEntry.path k T).2.length + (gather IndexEntry.path k I).2.length
          + (gather WorkEntry.path k W).2.length ≤ fuel := by
        rcases hhead with hh | hh | hh
        · have := hT5 hh; omega
        · have := hI5 hh; omega
        · have := hW5 hh; omega
      obtain ⟨ihT, ihI, ihW⟩ := ih _ _ _ hT1 hI1 hW1 hlen2
      simp only [List.map_cons, List.mem_cons]
      refine ⟨?_, ?_, ?_⟩
      · intro e he
        rcases hT6 e he with h | h
        · exact Or.inl h
        · exact Or.inr (ihT e h)
      · intro e he
        rcases hI6 e he with h | h
        · exact Or.inl h
        · exact Or.inr (ihI e h)
      · intro e he
        rcases hW6 e he with h | h
        · exact Or.inl h
        · exact Or.inr (ihW e h)

/-- The paths handed to the callback are, in order, paths of the merged
rows. -/
theorem emit_rows_sublist {σ : Type} (hash_file : Path → HashResult)
    (cb : σ → Path → Nat → σ × Int) :
    ∀ (rows : List Row) (s : σ),
      List.Sublist ((emit_rows hash_file cb rows s).calls.map Prod.fst)
        (rows.map Row.path) := by
  intro rows
  induction rows with
  | nil => intro s; simp [emit_rows]
  | cons r rest ih =>
    intro s
    unfold emit_rows
    cases hw : work_half hash_file r.i r.w with
    | none => simp
    | some wt =>
      simp only []
      by_cases hz : index_half r.t r.i ||| wt = 0
      · rw [if_pos hz]
        exact List.Sublist.cons _ (ih s)
      · rw [if_neg hz]
        by_cases hret : (cb s r.path (index_half r.t r.i ||| wt)).2 ≠ 0
        · rw [if_pos hret]
          simp
        · rw [if_neg hret]
          simp only [List.map_cons]
          exact List.Sublist.cons₂ _ (ih _)

/-- No row with zero flags reaches the callback. -/
theorem emit_rows_flags_ne_zero {σ : Type} (hash_file : Path → HashResult)
    (cb : σ → Path → Nat → σ × Int) :
    ∀ (rows : List Row) (s : σ), ∀ c ∈ (emit_rows hash_file cb rows s).calls, c.2 ≠ 0 := by
  intro rows
  induction rows with
  | nil => intro s c hc; simp [emit_rows] at hc
  | cons r rest ih =>
    intro s c hc
    unfold emit_rows at hc
    cases hw : work_half hash_file r.i r.w with
    | none => rw [hw] at hc; simp at hc
    | some wt =>
      rw [hw] at hc
      simp only [] at hc
      by_cases hz : index_half r.t r.i ||| wt = 0
      · rw [if_pos hz] at hc
        exact ih s c hc
      · rw [if_neg hz] at hc
        by_cases hret : (cb s r.path (index_half r.t r.i ||| wt)).2 ≠ 0
        · rw [if_pos hret] at hc
          simp only [List.mem_singleton] at hc
          rw [hc]
          exact hz
        · rw [if_neg hret] at hc
          simp only [List.mem_cons] at hc
          rcases hc with hc | hc
          · rw [hc]; exact hz
          · exact ih _ c hc

/-! ## The status tests on the modelled engine -/

theorem entry_paths0_ascending : strictly_ascending entry_paths0 := by decide
theorem entry_paths2_ascending : strictly_ascending entry_paths2 := by decide
theorem entry_paths3_ascending : strictly_ascending entry_paths3 := by decide

theorem statuscb0_passes : statuscb0 = true := by decide
theorem statuscb2_passes : statuscb2 = true := by decide
theorem statuscb3_passes : statuscb3 = true := by decide

/-- On the fixture as shipped the modelled engine hands to the callback the
rows `entry_paths0`, `entry_statuses0` of the test. -/
theorem base_rows :
    (git_status_foreach fixture_tree fixture_index fixture_work fixture_hash
        record_cb ()).calls = List.zip entry_paths0 entry_statuses0 := by
  decide

/-- After the purge the modelled engine hands to the callback the rows
`entry_paths2`, `entry_statuses2` of the test. -/
theorem purged_rows :
    (git_status_foreach fixture_tree fixture_index purged_work fixture_hash
        record_cb ()).calls = List.zip entry_paths2 entry_statuses2 := by
  decide

/-- After the renames the modelled engine hands to the callback the rows
`entry_paths3`, `entry_statuses3` of the test. -/
theorem renamed_rows :
    (git_status_foreach fixture_tree fixture_index renamed_work fixture_hash
        record_cb ()).calls = List.zip entry_paths3 entry_statuses3 := by
  decide

theorem listing_pairwise {α : Type} (key : α → Path) (L : List α)
    (h : strictly_ascending (L.map key)) :
    L.Pairwise (fun a b => path_lt (key a) (key b) = true) := by
  rw [strictly_ascending_iff, List.pairwise_map] at h
  exact h

theorem git_status_foreach_pairwise {σ : Type} (T : List TreeEntry) (I : List IndexEntry)
    (W : List WorkEntry) (hash_file : Path → HashResult) (cb : σ → Path → Nat → σ × Int)
    (payload : σ)
    (hT : strictly_ascending (T.map TreeEntry.path))
    (hI : strictly_ascending (I.map IndexEntry.path))
    (hW : strictly_ascending (W.map WorkEntry.path)) :
    ((git_status_foreach T I W hash_file cb payload).calls.map Prod.fst).Pairwise
      (fun a b => path_lt a b = true) := by
  unfold git_status_foreach
  exact List.Pairwise.sublist (emit_rows_sublist hash_file cb _ payload)
    (merge_rows_sorted _ T I W (listing_pairwise _ T hT) (listing_pairwise _ I hI)
      (listing_pairwise _ W hW)).1

/-- C5: for every repository, given by three listings that are each strictly
ascending (the listing invariant of §3), by the hashing of its working files,
and for every callback and payload, the paths `git_status_foreach` passes to
the callback are strictly ascending under the comparator of §4.2 and none is
repeated; the comparator puts a path before every longer path that extends it
at a slash; and the expected sequences `entry_paths0`, `entry_paths2` and
`entry_paths3` of the tests are strictly ascending, with `current_file`
before `current_file/current_file` and `subdir` before
`subdir/current_file`, and are the sequences of paths emitted on the fixture
as shipped, purged and renamed. -/
theorem git_status_foreach_ascending {σ : Type} (T : List TreeEntry) (I : List IndexEntry)
    (W : List WorkEntry) (hash_file : Path → HashResult) (cb : σ → Path → Nat → σ × Int)
    (payload : σ)
    (hT : strictly_ascending (T.map TreeEntry.path))
    (hI : strictly_ascending (I.map IndexEntry.path))
    (hW : strictly_ascending (W.map WorkEntry.path)) :
    strictly_ascending ((git_status_foreach T I W hash_file cb payload).calls.map Prod.fst)
    ∧ ((git_status_foreach T I W hash_file cb payload).calls.map Prod.fst).Nodup
    ∧ (∀ a b : Path, path_lt a (a ++ 47 :: b) = true)
    ∧ strictly_ascending entry_paths0
    ∧ strictly_ascending entry_paths2
    ∧ strictly_ascending entry_paths3
    ∧ path_lt (bytes "current_file") (bytes "current_file/current_file") = true
    ∧ path_lt (bytes "subdir") (bytes "subdir/current_file") = true
    ∧ (git_status_foreach fixture_tree fixture_index fixture_work fixture_hash
        record_cb ()).calls.map Prod.fst = entry_paths0
    ∧ (git_status_foreach fixture_tree fixture_index purged_work fixture_hash
        record_cb ()).calls.map Prod.fst = entry_paths2
    ∧ (git_status_foreach fixture_tree fixture_index renamed_work fixture_hash
        record_cb ()).calls.map Prod.fst = entry_paths3 := by
  have hp := git_status_foreach_pairwise T I W hash_file cb payload hT hI hW
  refine ⟨(strictly_ascending_iff _).2 hp, pairwise_path_lt_nodup _ hp, ?_,
    by decide, by decide, by decide, by decide, by decide, ?_, ?_, ?_⟩
  · intro a b
    exact path_lt_prefix a (47 :: b) (by simp)
  · rw [base_rows]; decide
  · rw [purged_rows]; decide
  · rw [renamed_rows]; decide

/-- Witness of `git_status_foreach_ascending`: the fixture after the renames
of test `statuscb3`. -/
theorem git_status_foreach_ascending_witness :
    strictly_ascending
      ((git_status_foreach fixture_tree fixture_index renamed_work fixture_hash
          record_cb ()).calls.map Prod.fst) :=
  (git_status_foreach_ascending fixture_tree fixture_index renamed_work fixture_hash
    record_cb () (by decide) (by decide) (by decide)).1

/-- C6, as stated, fails: after the purge the engine emits 14 rows, among them
`staged_delete_file_deleted` with `GIT_STATUS_INDEX_DELETED` alone, as the
test expects at position 6 of `entry_statuses2`; the `WtDeleted` bit of that
row is clear, so not every one of the 14 rows has it. -/
theorem purged_rows_not_all_wt_deleted :
    (git_status_foreach fixture_tree fixture_index purged_work fixture_hash
        record_cb ()).calls.length = 14
    ∧ (bytes "staged_delete_file_deleted", GIT_STATUS_INDEX_DELETED)
        ∈ (git_status_foreach fixture_tree fixture_index purged_work fixture_hash
            record_cb ()).calls
    ∧ entry_paths2[6]? = some (bytes "staged_delete_file_deleted")
    ∧ entry_statuses2[6]? = some GIT_STATUS_INDEX_DELETED
    ∧ GIT_STATUS_INDEX_DELETED &&& GIT_STATUS_WT_DELETED = 0
    ∧ ¬ (∀ c ∈ (git_status_foreach fixture_tree fixture_index purged_work fixture_hash
          record_cb ()).calls, c.2 &&& GIT_STATUS_WT_DELETED ≠ 0) := by
  rw [purged_rows]
  decide

/-- C6, amended: after the purge `git_status_foreach` emits exactly the 14
rows the test expects; the twelve rows whose path is in the index carry
`WtDeleted`, joined with the index half of the path; the two remaining rows,
the paths staged for deletion, are absent from the index and carry
`IndexDeleted` alone. -/
theorem purged_rows_classified :
    (git_status_foreach fixture_tree fixture_index purged_work fixture_hash
        record_cb ()).calls = List.zip entry_paths2 entry_statuses2
    ∧ (git_status_foreach fixture_tree fixture_index purged_work fixture_hash
        record_cb ()).calls.length = 14
    ∧ statuscb2 = true
    ∧ ((git_status_foreach fixture_tree fixture_index purged_work fixture_hash
          record_cb ()).calls.filter
        (fun c => decide (c.1 ∈ fixture_index.map IndexEntry.path))).length = 12
    ∧ ((git_status_foreach fixture_tree fixture_index purged_work fixture_hash
          record_cb ()).calls.filter
        (fun c => decide (c.1 ∈ fixture_index.map IndexEntry.path))).all
        (fun c => decide (c.2 &&& GIT_STATUS_WT_DELETED = GIT_STATUS_WT_DELETED)
          && (c.2 == GIT_STATUS_WT_DELETED
              || c.2 == (GIT_STATUS_WT_DELETED ||| GIT_STATUS_INDEX_MODIFIED)
              || c.2 == (GIT_STATUS_WT_DELETED ||| GIT_STATUS_INDEX_NEW))) = true
    ∧ (git_status_foreach fixture_tree fixture_index purged_work fixture_hash
          record_cb ()).calls.filter
        (fun c => decide (c.1 ∉ fixture_index.map IndexEntry.path))
      = [ (bytes "staged_delete_file_deleted", GIT_STATUS_INDEX_DELETED),
          (bytes "staged_delete_modified_file", GIT_STATUS_INDEX_DELETED) ] := by
  rw [purged_rows]
  decide

theorem emit_rows_status_cb1 (hash_file : Path → HashResult) (payload : Nat) :
    ∀ (rows : List Row) (mem : Nat → Int),
      (emit_rows hash_file (status_cb1 payload) rows mem).payload = mem := by
  intro rows
  induction rows with
  | nil => intro mem; rfl
  | cons r rest ih =>
    intro mem
    unfold emit_rows
    cases hw : work_half hash_file r.i r.w with
    | none => rfl
    | some wt =>
      simp only []
      by_cases hz : index_half r.t r.i ||| wt = 0
      · rw [if_pos hz]; exact ih mem
      · rw [if_neg hz]
        have hret : ¬ (status_cb1 payload mem r.path (index_half r.t r.i ||| wt)).2 ≠ 0 := by
          simp [status_cb1, GIT_SUCCESS]
        rw [if_neg hret]
        exact ih mem

/-- C8, evaluated on the code: `status_cb1` returns `GIT_SUCCESS` and writes no
`int`, so after `git_status_foreach` the counter holds what it held before,
whatever the number of rows; a row counter would have added one. In an empty
repository whose working tree holds the single file `new_file`, one row is
emitted and the counter the payload points to is still 0. -/
theorem status_cb1_never_counts (T : List TreeEntry) (I : List IndexEntry)
    (W : List WorkEntry) (hash_file : Path → HashResult) (payload : Nat) (mem : Nat → Int)
    (path : Path) (status_flags : Nat) :
    status_cb1 payload mem path status_flags = (mem, GIT_SUCCESS)
    ∧ (status_cb1_counting payload mem path status_flags).1 payload = mem payload + 1
    ∧ (git_status_foreach T I W hash_file (status_cb1 payload) mem).payload = mem
    ∧ (git_status_foreach [] [] [work_file "new_file" 9 1] fixture_hash (status_cb1 0)
        (fun _ => 0)).calls = [(bytes "new_file", GIT_STATUS_WT_NEW)]
    ∧ (git_status_foreach [] [] [work_file "new_file" 9 1] fixture_hash (status_cb1 0)
        (fun _ => 0)).payload 0 = 0 := by
  refine ⟨rfl, ?_, ?_, by decide, ?_⟩
  · simp [status_cb1_counting]
  · unfold git_status_foreach
    exact emit_rows_status_cb1 hash_file payload _ mem
  · unfold git_status_foreach
    rw [emit_rows_status_cb1]

end Libgit2
